import Mathlib

/-!
# Arena allocator: shallow embedding of `src/arena.c`

Target model: LP64, little-endian (the platform the sources are written for;
`DEFAULT_ALLIGNMENT` is documented as 16 bytes, so `sizeof(void *) = 8` and
`sizeof(Block) = 16`).

* `size_t` / `uintptr_t` values are natural numbers; every C operation that can
  wrap is written with an explicit `% SIZE_MOD`.
* Memory is a byte map `Mem = Nat → Nat` (only the value modulo 256 of a cell
  is ever read by a 64-bit load).  The `Block` header of a freed region lives
  *inside* that memory: `size` at byte offset 0, `next` at byte offset 8.
* A pointer is its address; `NULL` is `0`.
* The two free-list searches are `while` loops over pointers read from memory
  and need not terminate on a cyclic list, so they carry a fuel argument that
  bounds the number of loop-condition evaluations; `none` means that the fuel
  ran out.
* `arena_lock` / `arena_unlock` only touch the pthread mutex, never the arena
  fields, so in this sequential model they are the identity.
-/

namespace ArenaAllocator

/-! ## Machine words and byte memory -/

/-- Number of values of `size_t` and `uintptr_t` (64-bit target). -/
def SIZE_MOD : Nat := 2 ^ 64

/-- Wrapping subtraction of two machine words. -/
def wsub (x y : Nat) : Nat := (x + (SIZE_MOD - y % SIZE_MOD)) % SIZE_MOD

/-- Byte-addressed memory. -/
abbrev Mem := Nat → Nat

/-- Little-endian 64-bit load at address `p`. -/
def load64 (m : Mem) (p : Nat) : Nat :=
  m p % 256 + 256 * (m (p + 1) % 256 + 256 * (m (p + 2) % 256 + 256 * (m (p + 3) % 256
    + 256 * (m (p + 4) % 256 + 256 * (m (p + 5) % 256 + 256 * (m (p + 6) % 256
    + 256 * (m (p + 7) % 256)))))))

/-- Little-endian 64-bit store of `v` at address `p`. -/
def store64 (m : Mem) (p v : Nat) : Mem :=
  fun a => if p ≤ a ∧ a < p + 8 then (v / 256 ^ (a - p)) % 256 else m a

/-- Model of `memcpy(dst, src, n)`: the `n` bytes at `dst` become the bytes that
were at `src` before the call. -/
def memcpy (m : Mem) (dst src n : Nat) : Mem :=
  fun a => if dst ≤ a ∧ a < dst + n then m (src + (a - dst)) else m a

/-- Model of `memset(dst, c, n)`. -/
def memset (m : Mem) (dst c n : Nat) : Mem :=
  fun a => if dst ≤ a ∧ a < dst + n then c % 256 else m a

/-! ## Data model (`arena.h`, `arena.c`) -/

/-- The enum `BlockClass` of `arena.c`. -/
inductive BlockClass where
  | Small
  | Medium
  | Large
  | Huge
  deriving DecidableEq, Repr

/-- The enum `AllocationStrategy` of `arena.h`. -/
inductive AllocationStrategy where
  | BestFit
  | FirstFit
  deriving DecidableEq, Repr

/-- Value of `sizeof(Block)`: a `size_t` followed by a pointer. -/
def sizeof_Block : Nat := 16

/-- Byte offset of the field `next` inside `Block`. -/
def Block_next_off : Nat := 8

/-- The struct `Arena` of `arena.h`; `base`, the free-list heads and `mutex` are
addresses. -/
structure Arena where
  base : Nat
  align : Nat
  size : Nat
  offset : Nat
  committed : Nat
  free_list : BlockClass → Nat
  strategy : AllocationStrategy
  mutex : Nat

/-- The arena together with the memory its free-list nodes live in. -/
structure State where
  arena : Arena
  mem : Mem

/-- Reads `block->size`. -/
def Block_size (m : Mem) (block : Nat) : Nat := load64 m block

/-- Reads `block->next`. -/
def Block_next (m : Mem) (block : Nat) : Nat := load64 m (block + Block_next_off)

/-- Writes `a->free_list[class] = v`. -/
def State.set_free_list (st : State) (cls : BlockClass) (v : Nat) : State :=
  { st with arena := { st.arena with free_list := Function.update st.arena.free_list cls v } }

/-- Writes `block->next = v`. -/
def State.set_next (st : State) (block v : Nat) : State :=
  { st with mem := store64 st.mem (block + Block_next_off) v }

/-! ## Helpers (`utils.h`, `arena.c`) -/

/-- The macro `is_power_of_two` of `utils.h`. -/
def is_power_of_two (x : Nat) : Bool :=
  x != 0 && (x &&& (x - 1)) == 0

/-- The function `align_forward` of `arena.c`. -/
def align_forward (ptr alignment : Nat) : Nat :=
  if !is_power_of_two alignment then 0
  else
    let modulo := ptr &&& (alignment - 1)
    if modulo ≠ 0 then (ptr + (alignment - modulo)) % SIZE_MOD else ptr

/-- The function `get_block_class` of `arena.c`. -/
def get_block_class (size : Nat) : BlockClass :=
  if size ≤ 64 then BlockClass.Small
  else if size ≤ 512 then BlockClass.Medium
  else if size ≤ 4096 then BlockClass.Large
  else BlockClass.Huge

/-! ## Operations (`arena.c`) -/

/-- The function `arena_init`. -/
def arena_init (buffer size align : Nat) (strategy : AllocationStrategy) : Arena :=
  { base := buffer, size := size, align := align, offset := 0, committed := 0,
    free_list := fun _ => 0, strategy := strategy, mutex := 0 }

/-- The function `arena_lock`: acts on the mutex only. -/
def arena_lock (st : State) : State := st

/-- The function `arena_unlock`: acts on the mutex only. -/
def arena_unlock (st : State) : State := st

/-- The function `arena_alloc_aligned` (bump allocation). -/
def arena_alloc_aligned (st : State) (size : Nat) : Nat × State :=
  let a := st.arena
  let curr_ptr := (a.base + a.offset) % SIZE_MOD
  let offset := wsub (align_forward curr_ptr a.align) a.base
  if (offset + size) % SIZE_MOD > a.size then (0, st)
  else
    ((a.base + offset) % SIZE_MOD,
      { st with arena := { a with committed := (a.committed + size) % SIZE_MOD,
                                  offset := (offset + size) % SIZE_MOD } })

/-- Loop of `arena_free_list_find_first_block`, one unit of fuel per evaluation
of the loop condition. -/
def find_first_loop : Nat → State → BlockClass → Nat → Nat → Nat → Option (Nat × State)
  | 0, _, _, _, _, _ => none
  | fuel + 1, st, cls, size, prev, curr =>
    if curr = 0 then some (0, st)
    else if Block_size st.mem curr ≥ size then
      if prev ≠ 0 then some (curr, st.set_next prev (Block_next st.mem curr))
      else some (curr, st.set_free_list cls (Block_next st.mem curr))
    else find_first_loop fuel st cls size curr (Block_next st.mem curr)

/-- The function `arena_free_list_find_first_block`. -/
def arena_free_list_find_first_block (fuel : Nat) (st : State) (cls : BlockClass)
    (size : Nat) : Option (Nat × State) :=
  if st.arena.free_list cls = 0 then some (0, st)
  else find_first_loop fuel st cls size 0 (st.arena.free_list cls)

/-- Loop of `arena_free_list_find_best_block`; the result is the pair
`(prev, best)` with which the loop is left. -/
def find_best_loop : Nat → Mem → Nat → Nat → Nat → Nat → Option (Nat × Nat)
  | 0, _, _, _, _, _ => none
  | fuel + 1, m, size, prev, curr, best =>
    if curr = 0 then some (prev, best)
    else
      let take : Bool := decide (Block_size m curr ≥ size) &&
        (decide (best = 0) || (decide (best ≠ 0) && decide (Block_size m curr < Block_size m best)))
      let best1 := if take then curr else best
      if take && decide (Block_size m best1 = size) then some (prev, best1)
      else if Block_next m curr = 0 then some (prev, best1)
      else find_best_loop fuel m size curr (Block_next m curr) best1

/-- The function `arena_free_list_find_best_block`. -/
def arena_free_list_find_best_block (fuel : Nat) (st : State) (cls : BlockClass)
    (size : Nat) : Option (Nat × State) :=
  if st.arena.free_list cls = 0 then some (0, st)
  else
    match find_best_loop fuel st.mem size 0 (st.arena.free_list cls) 0 with
    | none => none
    | some (prev, best) =>
      if best ≠ 0 then
        if prev ≠ 0 then some (best, st.set_next prev (Block_next st.mem best))
        else some (best, st.set_free_list cls (Block_next st.mem best))
      else some (0, st)

/-- The function `arena_internal_alloc`. -/
def arena_internal_alloc (fuel size : Nat) (st : State) : Option (Nat × State) :=
  if size = 0 then some (0, st)
  else
    let cls := get_block_class size
    let found :=
      match st.arena.strategy with
      | AllocationStrategy.FirstFit => arena_free_list_find_first_block fuel st cls size
      | AllocationStrategy.BestFit => arena_free_list_find_best_block fuel st cls size
    match found with
    | none => none
    | some (ptr, st1) =>
      if ptr ≠ 0 then
        some (ptr, { st1 with arena :=
          { st1.arena with committed := (st1.arena.committed + size) % SIZE_MOD } })
      else some (arena_alloc_aligned st1 size)

/-- The function `arena_recycle_alloc`; the first component is the returned
`block->size`. -/
def arena_recycle_alloc (st : State) (ptr size : Nat) (cls : BlockClass) : Nat × State :=
  if size < sizeof_Block then (0, st)
  else
    let a := st.arena
    let cons_block := align_forward ((ptr + size) % SIZE_MOD) a.align
    let pad := wsub cons_block ((ptr + size) % SIZE_MOD)
    let m1 := store64 st.mem ptr ((size + pad) % SIZE_MOD)
    let m2 := store64 m1 (ptr + Block_next_off) (a.free_list cls)
    (Block_size m2 ptr,
      { arena := { a with free_list := Function.update a.free_list cls ptr,
                          committed := wsub a.committed size },
        mem := m2 })

/-- The function `arena_alloc`. -/
def arena_alloc (fuel size : Nat) (st : State) : Option (Nat × State) :=
  match arena_internal_alloc fuel size (arena_lock st) with
  | none => none
  | some (ptr, st1) => some (ptr, arena_unlock st1)

/-- The function `arena_realloc`. -/
def arena_realloc (fuel new_size old_size ptr : Nat) (st : State) : Option (Nat × State) :=
  if new_size ≤ old_size then some (ptr, st)
  else
    match arena_internal_alloc fuel new_size (arena_lock st) with
    | none => none
    | some (new_ptr, st1) =>
      let st2 : State :=
        if new_ptr ≠ 0 then { st1 with mem := memcpy st1.mem new_ptr ptr old_size } else st1
      let cls := get_block_class old_size
      some (new_ptr, arena_unlock (arena_recycle_alloc st2 ptr old_size cls).2)

/-- The function `arena_calloc`. -/
def arena_calloc (fuel count size : Nat) (st : State) : Option (Nat × State) :=
  let total_size := (count * size) % SIZE_MOD
  match arena_internal_alloc fuel total_size (arena_lock st) with
  | none => none
  | some (ptr, st1) =>
    let st2 : State :=
      if ptr ≠ 0 then { st1 with mem := memset st1.mem ptr 0 total_size } else st1
    some (ptr, arena_unlock st2)

/-- The function `arena_free`. -/
def arena_free (size ptr : Nat) (st : State) : State :=
  let cls := get_block_class size
  arena_unlock (arena_recycle_alloc (arena_lock st) ptr size cls).2

/-- The function `arena_free_all`. -/
def arena_free_all (st : State) : State :=
  arena_unlock
    { (arena_lock st) with arena :=
        { (arena_lock st).arena with offset := 0, committed := 0, free_list := fun _ => 0 } }

/-- The function `arena_allocated` of `arena.h`. -/
def arena_allocated (st : State) : Nat := (arena_unlock (arena_lock st)).arena.committed

/-! ## Callers

A caller is modelled by the sequence of calls it makes; besides the allocator
entry points it may store a 64-bit word into memory (a caller writing into a
region it was handed). -/

/-- One action of a caller of the allocator interface. -/
inductive Call where
  | alloc (size : Nat)
  | calloc (count size : Nat)
  | realloc (new_size old_size ptr : Nat)
  | free (size ptr : Nat)
  | free_all
  | write (addr val : Nat)

/-- Performs one call; the first component is the returned pointer, if the call
returns one. -/
def step (fuel : Nat) (c : Call) (st : State) : Option (Option Nat × State) :=
  match c with
  | Call.alloc size => (arena_alloc fuel size st).map fun r => (some r.1, r.2)
  | Call.calloc count size => (arena_calloc fuel count size st).map fun r => (some r.1, r.2)
  | Call.realloc new_size old_size ptr =>
    (arena_realloc fuel new_size old_size ptr st).map fun r => (some r.1, r.2)
  | Call.free size ptr => some (none, arena_free size ptr st)
  | Call.free_all => some (none, arena_free_all st)
  | Call.write addr val => some (none, { st with mem := store64 st.mem addr val })

/-- Performs a sequence of calls, collecting the returned pointers in order. -/
def run (fuel : Nat) : List Call → State → Option (List (Option Nat) × State)
  | [], st => some ([], st)
  | c :: cs, st =>
    match step fuel c st with
    | none => none
    | some (r, st1) =>
      match run fuel cs st1 with
      | none => none
      | some (rs, st2) => some (r :: rs, st2)

/-- Memory whose bytes are all zero. -/
def zeroMem : Mem := fun _ => 0

/-- A fresh arena over a buffer at address `buffer` in zeroed memory. -/
def fresh (buffer size align : Nat) (strategy : AllocationStrategy) : State :=
  { arena := arena_init buffer size align strategy, mem := zeroMem }

/-! ## Free lists as seen through memory -/

/-- The chain of `next` pointers that starts at `head` visits exactly the blocks
`bs`, in this order, and then ends with `NULL`. -/
def FreeList (m : Mem) : Nat → List Nat → Prop
  | head, [] => head = 0
  | head, b :: bs => head = b ∧ b ≠ 0 ∧ FreeList m (Block_next m b) bs

/-- Whether a chain is the given list of blocks can be computed. -/
instance FreeList.decidable (m : Mem) :
    ∀ (head : Nat) (bs : List Nat), Decidable (FreeList m head bs)
  | head, [] => inferInstanceAs (Decidable (head = 0))
  | head, b :: bs =>
    @instDecidableAnd (head = b) (b ≠ 0 ∧ FreeList m (Block_next m b) bs) inferInstance
      (@instDecidableAnd (b ≠ 0) (FreeList m (Block_next m b) bs) inferInstance
        (FreeList.decidable m (Block_next m b) bs))

/-- The headers of two blocks do not overlap. -/
def HeaderDisjoint (b c : Nat) : Prop := b + sizeof_Block ≤ c ∨ c + sizeof_Block ≤ b

/-- Whether two headers overlap can be computed. -/
instance HeaderDisjoint.decidable (b c : Nat) : Decidable (HeaderDisjoint b c) :=
  inferInstanceAs (Decidable (b + sizeof_Block ≤ c ∨ c + sizeof_Block ≤ b))

/-! ## Scenarios used by the concrete evaluations -/

/-- A First-Fit arena over a 100-byte buffer at address 4096 with 16-byte
alignment: the capacity is not a multiple of the alignment. -/
def overrun_arena : State := fresh 4096 100 16 AllocationStrategy.FirstFit

/-- Two regions fill the buffer of `overrun_arena`; the second one, 20 bytes at
4176, is released with its size and 30 bytes are requested. -/
def overrun_trace : List Call :=
  [Call.alloc 80, Call.alloc 20, Call.free 20 4176, Call.alloc 30]

/-- Best-Fit caller: three regions are allocated and released so that the Small
free list is 4096 (48 bytes) → 4144 (32 bytes) → 4176 (64 bytes); a request of
40 bytes is served by the block at 4096, the caller fills the 40 bytes it was
handed, and asks for 32 bytes. -/
def misaligned_trace : List Call :=
  [Call.alloc 48, Call.alloc 32, Call.alloc 64,
   Call.free 64 4176, Call.free 32 4144, Call.free 48 4096,
   Call.alloc 40,
   Call.write 4096 100, Call.write 4104 4120, Call.write 4112 7, Call.write 4120 32,
   Call.write 4128 0,
   Call.alloc 32]

/-- One allocation smaller than the Block header, then its release. -/
def small_release_trace : List Call :=
  [Call.alloc 8, Call.free 8 4096]

/-- With alignment 1 the stored sizes are the requested sizes: the calls leave
the Small free list 4181 (40 bytes) → 4156 (25 bytes) → 4096 (60 bytes). -/
def list_40_25_60_trace : List Call :=
  [Call.alloc 60, Call.alloc 25, Call.alloc 40,
   Call.free 60 4096, Call.free 25 4156, Call.free 40 4181]

/-- The state whose Small free list holds blocks of 40, 25 and 60 bytes, in this
order, under the given strategy. -/
def list_40_25_60 (strategy : AllocationStrategy) : State :=
  match run 1 list_40_25_60_trace (fresh 4096 1024 1 strategy) with
  | some (_, st) => st
  | none => fresh 4096 1024 1 strategy

/-- The fields of a state that the concrete evaluations look at: bump offset,
committed counter and the four free-list heads. -/
def State.view (st : State) : Nat × Nat × List Nat :=
  (st.arena.offset, st.arena.committed,
    [st.arena.free_list BlockClass.Small, st.arena.free_list BlockClass.Medium,
     st.arena.free_list BlockClass.Large, st.arena.free_list BlockClass.Huge])

/-- The configuration fields of an arena: never written after `arena_init`. -/
def Arena.config (a : Arena) : Nat × Nat × Nat × AllocationStrategy × Nat :=
  (a.base, a.align, a.size, a.strategy, a.mutex)

/-- Among the blocks `bs`, `r` is the earliest block of least stored size that
can hold `size` bytes. -/
def BestFitChoice (m : Mem) (size : Nat) (bs : List Nat) (r : Nat) : Prop :=
  ∃ pre post, bs = pre ++ r :: post ∧ size ≤ Block_size m r ∧
    (∀ b ∈ pre, size ≤ Block_size m b → Block_size m r < Block_size m b) ∧
    (∀ b ∈ post, size ≤ Block_size m b → Block_size m r ≤ Block_size m b)

/-- A 32-byte First-Fit arena whose whole buffer is one live 32-byte region at
4096. -/
def full_arena : State :=
  match run 1 [Call.alloc 32] (fresh 4096 32 16 AllocationStrategy.FirstFit) with
  | some (_, st) => st
  | none => fresh 4096 32 16 AllocationStrategy.FirstFit

/-- A First-Fit arena with one live 69-byte region at 4096 whose first sixteen
bytes the caller has filled with the byte 99. -/
def grow_arena : State :=
  match run 1 [Call.alloc 69, Call.write 4096 7161677110969590627,
      Call.write 4104 7161677110969590627]
      (fresh 4096 1024 16 AllocationStrategy.FirstFit) with
  | some (_, st) => st
  | none => fresh 4096 1024 16 AllocationStrategy.FirstFit

/-- The state in which the bump allocation of 100 bytes leaves `grow_arena`. -/
def grow_arena_bumped : State :=
  (arena_alloc_aligned grow_arena 100).2

/-- A First-Fit arena whose Small free list holds one released 32-byte block at
4096; the block still carries its header and, behind it, the bytes 99 the
caller had stored in the region. -/
def stale_block_arena : State :=
  match run 1 [Call.alloc 32, Call.write 4112 7161677110969590627,
      Call.write 4120 7161677110969590627, Call.free 32 4096]
      (fresh 4096 1024 16 AllocationStrategy.FirstFit) with
  | some (_, st) => st
  | none => fresh 4096 1024 16 AllocationStrategy.FirstFit

/-- The state `stale_block_arena` after the block at 4096 has been taken from
the free list for 24 bytes. -/
def stale_block_arena_reused : State :=
  match arena_internal_alloc 1 24 stale_block_arena with
  | some (_, st) => st
  | none => stale_block_arena

/-- A Best-Fit arena with one live 8-byte region at 4096. -/
def small_live_arena : State :=
  match run 1 [Call.alloc 8] (fresh 4096 1024 16 AllocationStrategy.BestFit) with
  | some (_, st) => st
  | none => fresh 4096 1024 16 AllocationStrategy.BestFit

/-- A First-Fit arena over a 64-byte buffer at 4096, 16-byte alignment. -/
def reset_arena : State := fresh 4096 64 16 AllocationStrategy.FirstFit

/-- A full reset, a request for the whole capacity of `reset_arena`, then a
request for 2^64 - 64 bytes. -/
def reset_trace : List Call :=
  [Call.free_all, Call.alloc 64, Call.alloc (2 ^ 64 - 64)]

/-- A First-Fit arena over a 100-byte buffer at 4096 whose first 40 bytes are
one live region: the bump offset is 40, the aligned offset is 48. -/
def wrap_arena : State :=
  match run 1 [Call.alloc 40] (fresh 4096 100 16 AllocationStrategy.FirstFit) with
  | some (_, st) => st
  | none => fresh 4096 100 16 AllocationStrategy.FirstFit

/-- A Best-Fit caller that releases only regions it was handed, with their
sizes: three regions are allocated and released so that the Small free list is
4096 (48 bytes) → 4144 (32 bytes) → 4176 (64 bytes); then 40 bytes and 48 bytes
are requested, nothing being released in between. -/
def double_handout_trace : List Call :=
  [Call.alloc 48, Call.alloc 32, Call.alloc 64,
   Call.free 64 4176, Call.free 32 4144, Call.free 48 4096,
   Call.alloc 40, Call.alloc 48]

/-- A First-Fit arena of 4096 bytes whose Medium free list holds one released
block of 512 bytes at 4096 and whose Small free list is empty. -/
def medium_block_arena : State :=
  match run 1 [Call.alloc 512, Call.free 512 4096]
      (fresh 4096 4096 16 AllocationStrategy.FirstFit) with
  | some (_, st) => st
  | none => fresh 4096 4096 16 AllocationStrategy.FirstFit

/-- The function `arena_set_attr_mutex` of `arena.h`. -/
def arena_set_attr_mutex (a : Arena) (mutex : Nat) : Arena :=
  { a with mutex := mutex }

/-- A fresh arena over zeroed memory with the lock enabled: the mutex pointer is
set to the address 8192. -/
def locked_arena (strategy : AllocationStrategy) : State :=
  { arena := arena_set_attr_mutex (arena_init 4096 1024 16 strategy) 8192, mem := zeroMem }

/-- One thread, one allocate/free pair of 8 bytes. -/
def one_small_pair : List Call :=
  [Call.alloc 8, Call.free 8 4096]

/-- One thread, four allocate/free pairs of 48, 64, 40 and 40 bytes, each region
being released with its size before the next one is requested. -/
def four_pairs : List Call :=
  [Call.alloc 48, Call.free 48 4096, Call.alloc 64, Call.free 64 4144,
   Call.alloc 40, Call.free 40 4096, Call.alloc 40, Call.free 40 4096]

/-- A Best-Fit caller: two regions are allocated and released so that the Small
free list is 4096 (48 bytes) → 4144 (64 bytes); 40 bytes are requested and
served at 4096; the caller fills its 40 bytes with the words 7, 4144, 1, 2, 3. -/
def grow_live_trace : List Call :=
  [Call.alloc 48, Call.alloc 64, Call.free 64 4144, Call.free 48 4096, Call.alloc 40,
   Call.write 4096 7, Call.write 4104 4144, Call.write 4112 1, Call.write 4120 2,
   Call.write 4128 3]

/-- The state `grow_live_trace` leaves: the 40-byte region at 4096 is live. -/
def grow_live_arena : State :=
  match run 2 grow_live_trace (fresh 4096 1024 16 AllocationStrategy.BestFit) with
  | some (_, st) => st
  | none => fresh 4096 1024 16 AllocationStrategy.BestFit

/-- The five 64-bit words of a 40-byte region at `p`. -/
def words5 (m : Mem) (p : Nat) : List Nat :=
  [load64 m p, load64 m (p + 8), load64 m (p + 16), load64 m (p + 24), load64 m (p + 32)]

/-- The state the first seven calls of `double_handout_trace` leave: the 40-byte
region at 4096 is live, and the Small free list is 4096 → 4144 → 4144 → ... -/
def cyclic_arena : State :=
  match run 3 (double_handout_trace.take 7) (fresh 4096 1024 16 AllocationStrategy.BestFit) with
  | some (_, st) => st
  | none => fresh 4096 1024 16 AllocationStrategy.BestFit

/-- A Best-Fit caller: the Small free list is 4096 (48 bytes) → 4144 (64 bytes);
8 bytes are requested and served at 4096, released with their size, and 8 bytes
are requested again. -/
def small_reuse_trace : List Call :=
  [Call.alloc 48, Call.alloc 64, Call.free 64 4144, Call.free 48 4096,
   Call.alloc 8, Call.free 8 4096, Call.alloc 8]

/-- A First-Fit caller: 8 bytes are allocated at 4096 and released with their
size, 2^64 - 16 bytes are requested, and 8 bytes are requested again. -/
def small_wrap_trace : List Call :=
  [Call.alloc 8, Call.free 8 4096, Call.alloc (2 ^ 64 - 16), Call.alloc 8]

/-- A Best-Fit caller: a 100-byte region at 4208 is released to the Medium free
list and the Small free list is 4096 (48 bytes) → 4144 (64 bytes); 40 bytes are
requested and served at 4096, the caller fills its 40 bytes with the words 7,
4208, 1, 2, 3, and 30 bytes are requested. -/
def cross_class_trace : List Call :=
  [Call.alloc 48, Call.alloc 64, Call.alloc 100,
   Call.free 100 4208, Call.free 64 4144, Call.free 48 4096,
   Call.alloc 40,
   Call.write 4096 7, Call.write 4104 4208, Call.write 4112 1, Call.write 4120 2,
   Call.write 4128 3,
   Call.alloc 30]

/-- A First-Fit caller: a 512-byte region at 4096 is released to the Medium free
list, 2^64 - 512 bytes are requested, and 30 bytes are requested. -/
def cross_class_wrap_trace : List Call :=
  [Call.alloc 512, Call.free 512 4096, Call.alloc (2 ^ 64 - 512), Call.alloc 30]

/-- The calls of one thread: two allocate/free pairs, of 48 and of 40 bytes. -/
def thread_one : List Call :=
  [Call.alloc 48, Call.free 48 4096, Call.alloc 40, Call.free 40 4096]

/-- The calls of another thread: two allocate/free pairs, of 64 and of 100
bytes. -/
def thread_two : List Call :=
  [Call.alloc 64, Call.free 64 4144, Call.alloc 100, Call.free 100 4208]

/-- The order in which the lock admits the calls of two threads: `true` takes the
next call of the first thread, `false` the next call of the second. -/
def interleave : List Bool → List Call → List Call → List Call
  | true :: s, c :: a, b => c :: interleave s a b
  | false :: s, a, c :: b => c :: interleave s a b
  | _, a, b => a ++ b

/-- One interleaving of `thread_one` and `thread_two`. -/
def two_thread_interleaving : List Call :=
  interleave [true, false, false, true, true, true, false, false] thread_one thread_two

/-! ## Machine words and memory: basic facts -/

theorem load64_lt (m : Mem) (p : Nat) : load64 m p < SIZE_MOD := by
  unfold load64 SIZE_MOD
  omega

theorem load64_store64_same (m : Mem) (p v : Nat) (hv : v < SIZE_MOD) :
    load64 (store64 m p v) p = v := by
  unfold SIZE_MOD at hv
  unfold load64 store64
  have e0 : p - p = 0 := by omega
  have e1 : p + 1 - p = 1 := by omega
  have e2 : p + 2 - p = 2 := by omega
  have e3 : p + 3 - p = 3 := by omega
  have e4 : p + 4 - p = 4 := by omega
  have e5 : p + 5 - p = 5 := by omega
  have e6 : p + 6 - p = 6 := by omega
  have e7 : p + 7 - p = 7 := by omega
  simp only [e0, e1, e2, e3, e4, e5, e6, e7, le_refl, Nat.le_add_right, Nat.lt_add_of_pos_right,
    Nat.add_lt_add_iff_left, true_and, if_true, Nat.reducePow, Nat.reduceLT, Nat.lt_add_one,
    and_self, Nat.zero_lt_succ, Nat.div_one, Nat.mod_mod]
  omega

theorem load64_congr (m m1 : Mem) (q : Nat) (h : ∀ a, q ≤ a → a < q + 8 → m1 a = m a) :
    load64 m1 q = load64 m q := by
  unfold load64
  rw [h q (by omega) (by omega), h (q + 1) (by omega) (by omega), h (q + 2) (by omega) (by omega),
    h (q + 3) (by omega) (by omega), h (q + 4) (by omega) (by omega),
    h (q + 5) (by omega) (by omega), h (q + 6) (by omega) (by omega),
    h (q + 7) (by omega) (by omega)]

theorem store64_other (m : Mem) (p v a : Nat) (h : a < p ∨ p + 8 ≤ a) :
    store64 m p v a = m a := by
  unfold store64
  rw [if_neg (by omega)]

theorem load64_store64_disj (m : Mem) (p q v : Nat) (h : q + 8 ≤ p ∨ p + 8 ≤ q) :
    load64 (store64 m p v) q = load64 m q :=
  load64_congr _ _ _ (fun a h1 h2 => store64_other m p v a (by omega))

theorem wsub_lt (x y : Nat) : wsub x y < SIZE_MOD := by
  unfold wsub SIZE_MOD
  omega

theorem wsub_of_le (x y : Nat) (hx : x < SIZE_MOD) (h : y ≤ x) : wsub x y = x - y := by
  unfold wsub
  unfold SIZE_MOD at *
  omega

/-! ## Powers of two and `align_forward` -/

theorem pow2_of_land_pred (a : Nat) : a ≠ 0 → a &&& (a - 1) = 0 → ∃ k, a = 2 ^ k := by
  induction a using Nat.strong_induction_on with
  | _ a ih =>
    intro h0 h
    have hdiv : a / 2 &&& (a - 1) / 2 = 0 := by
      rw [← Nat.and_div_two, h]
    rcases Nat.mod_two_eq_zero_or_one a with hev | hodd
    · have h2 : (a - 1) / 2 = a / 2 - 1 := by omega
      rw [h2] at hdiv
      obtain ⟨k, hk⟩ := ih (a / 2) (by omega) (by omega) hdiv
      refine ⟨k + 1, ?_⟩
      rw [pow_succ, ← hk]
      omega
    · have h2 : (a - 1) / 2 = a / 2 := by omega
      rw [h2, Nat.and_self] at hdiv
      exact ⟨0, by simp; omega⟩

theorem is_power_of_two_exists (a : Nat) (h : is_power_of_two a = true) : ∃ k, a = 2 ^ k := by
  unfold is_power_of_two at h
  simp only [Bool.and_eq_true, bne_iff_ne, ne_eq, beq_iff_eq] at h
  exact pow2_of_land_pred a h.1 h.2

theorem is_power_of_two_pos (a : Nat) (h : is_power_of_two a = true) : 0 < a := by
  obtain ⟨k, rfl⟩ := is_power_of_two_exists a h
  exact Nat.pos_pow_of_pos k (by decide)

theorem land_pred_eq_mod (p a : Nat) (h : is_power_of_two a = true) : p &&& (a - 1) = p % a := by
  obtain ⟨k, rfl⟩ := is_power_of_two_exists a h
  exact Nat.and_pow_two_sub_one_eq_mod p k

theorem align_forward_eq (p a : Nat) (h : is_power_of_two a = true) :
    align_forward p a = if p % a = 0 then p else (p + (a - p % a)) % SIZE_MOD := by
  unfold align_forward
  simp only [h, Bool.not_true, Bool.false_eq_true, if_false, land_pred_eq_mod p a h]
  by_cases hm : p % a = 0 <;> simp [hm]

/-- Without wrap-around `align_forward` rounds up to the next multiple. -/
theorem align_forward_bounds (p a : Nat) (h : is_power_of_two a = true)
    (hfit : p + a ≤ SIZE_MOD) :
    p ≤ align_forward p a ∧ align_forward p a < p + a ∧ align_forward p a % a = 0 := by
  have ha := is_power_of_two_pos a h
  rw [align_forward_eq p a h]
  by_cases hm : p % a = 0
  · simp only [hm, if_true]
    exact ⟨le_refl _, by omega, trivial⟩
  · simp only [hm, if_false]
    have hlt : p % a < a := Nat.mod_lt _ ha
    have hsmall : p + (a - p % a) < SIZE_MOD := by omega
    rw [Nat.mod_eq_of_lt hsmall]
    refine ⟨by omega, by omega, ?_⟩
    have h1 : p + (a - p % a) = a * (p / a + 1) := by
      have := Nat.div_add_mod p a
      rw [Nat.mul_add, Nat.mul_one]
      omega
    rw [h1]
    exact Nat.mul_mod_right _ _

/-! ## Free lists -/

theorem FreeList_ne_zero (m : Mem) (bs : List Nat) (head : Nat) (h : FreeList m head bs) :
    ∀ b ∈ bs, b ≠ 0 := by
  induction bs generalizing head with
  | nil => simp
  | cons c rest ih =>
    obtain ⟨_, hc, hrest⟩ := h
    intro b hb
    rcases List.mem_cons.1 hb with rfl | hin
    · exact hc
    · exact ih _ hrest b hin

theorem FreeList_null (m : Mem) (bs : List Nat) (h : FreeList m 0 bs) : bs = [] := by
  cases bs with
  | nil => rfl
  | cons c rest => exact absurd h.1.symm h.2.1

theorem FreeList_nonnull (m : Mem) (bs : List Nat) (head : Nat) (h : FreeList m head bs)
    (hh : head ≠ 0) : bs ≠ [] := by
  intro hb
  subst hb
  exact hh h

/-! ## C1, C2, C3: the code on concrete callers -/

/-- C1 (the code departs from it): in a 100-byte First-Fit arena at 4096 with
16-byte alignment, regions of 80 and 20 bytes are allocated at 4096 and 4176 and
fill the buffer.  The 20-byte region is released with its size; the release
records 32 bytes, the size padded up to the alignment.  The next request, for 30
bytes, is served from that block: the region handed out starts at 4176 and ends
at 4206, past the end 4196 of the buffer. -/
theorem C1_reused_block_overruns_buffer :
    is_power_of_two overrun_arena.arena.align = true ∧
    (run 1 overrun_trace overrun_arena).map (fun r => r.1)
      = some [some 4096, some 4176, none, some 4176] ∧
    (run 1 (overrun_trace.take 3) overrun_arena).map
        (fun r => (r.2.arena.free_list BlockClass.Small, Block_size r.2.mem 4176))
      = some (4176, 32) ∧
    overrun_arena.arena.base + overrun_arena.arena.size = 4196 ∧
    overrun_arena.arena.base + overrun_arena.arena.size < 4176 + 30 := by
  decide

/-- C2 (the code departs from it): a Best-Fit arena with 16-byte alignment and a
caller that releases only regions it was handed, with their sizes.  The request
of 40 bytes is served by the block at 4096, which Best-Fit leaves at the head of
the Small free list; the caller fills its 40 bytes; the next request, for 32
bytes, follows the bytes of the caller as if they were a Block header and
returns 4120, which is not a multiple of 16. -/
theorem C2_best_fit_returns_misaligned :
    is_power_of_two (fresh 4096 1024 16 AllocationStrategy.BestFit).arena.align = true ∧
    (run 3 misaligned_trace (fresh 4096 1024 16 AllocationStrategy.BestFit)).map
        (fun r => r.1)
      = some [some 4096, some 4144, some 4176, none, none, none, some 4096,
          none, none, none, none, none, some 4120] ∧
    4120 % (fresh 4096 1024 16 AllocationStrategy.BestFit).arena.align = 8 := by
  decide

/-- C3 (the code departs from it): on a fresh arena one region of 8 bytes is
allocated and released with its size; no allocation is outstanding, and
`arena_allocated` reports 8. -/
theorem C3_committed_not_zero_after_small_release :
    (run 1 small_release_trace (fresh 4096 1024 16 AllocationStrategy.BestFit)).map
        (fun r => (r.1, arena_allocated r.2))
      = some ([some 4096, none], 8) := by
  decide

/-! ## C4: a failing allocation leaves the state alone -/

theorem find_first_loop_null (fuel : Nat) (st st1 : State) (cls : BlockClass)
    (size prev curr : Nat)
    (h : find_first_loop fuel st cls size prev curr = some (0, st1)) : st1 = st := by
  induction fuel generalizing prev curr with
  | zero => simp [find_first_loop] at h
  | succ n ih =>
    unfold find_first_loop at h
    by_cases hc : curr = 0
    · simp only [hc, if_true, Option.some.injEq, Prod.mk.injEq, true_and] at h
      exact h.symm
    · simp only [hc, if_false] at h
      by_cases hs : Block_size st.mem curr ≥ size
      · simp only [hs, if_true] at h
        by_cases hp : prev ≠ 0
        · simp only [hp, if_true, ne_eq, not_false_eq_true, Option.some.injEq,
            Prod.mk.injEq] at h
          exact absurd h.1 hc
        · simp only [hp, if_false, Option.some.injEq, Prod.mk.injEq] at h
          exact absurd h.1 hc
      · simp only [hs, if_false] at h
        exact ih _ _ h

theorem find_first_block_null (fuel : Nat) (st st1 : State) (cls : BlockClass) (size : Nat)
    (h : arena_free_list_find_first_block fuel st cls size = some (0, st1)) : st1 = st := by
  unfold arena_free_list_find_first_block at h
  by_cases hh : st.arena.free_list cls = 0
  · simp only [hh, if_true, Option.some.injEq, Prod.mk.injEq, true_and] at h
    exact h.symm
  · simp only [hh, if_false] at h
    exact find_first_loop_null _ _ _ _ _ _ _ h

theorem find_best_block_null (fuel : Nat) (st st1 : State) (cls : BlockClass) (size : Nat)
    (h : arena_free_list_find_best_block fuel st cls size = some (0, st1)) : st1 = st := by
  unfold arena_free_list_find_best_block at h
  by_cases hh : st.arena.free_list cls = 0
  · simp only [hh, if_true, Option.some.injEq, Prod.mk.injEq, true_and] at h
    exact h.symm
  · simp only [hh, if_false] at h
    split at h
    · simp at h
    · rename_i prev best hl
      by_cases hb : best = 0
      · simp only [hb, ne_eq, not_true_eq_false, if_false, Option.some.injEq, Prod.mk.injEq,
          true_and] at h
        exact h.symm
      · rw [if_pos hb] at h
        by_cases hp : prev = 0
        · rw [if_neg (by simpa using hp)] at h
          simp only [Option.some.injEq, Prod.mk.injEq] at h
          exact absurd h.1 hb
        · rw [if_pos hp] at h
          simp only [Option.some.injEq, Prod.mk.injEq] at h
          exact absurd h.1 hb

/-- The address computed by the bump path is the aligned cursor. -/
theorem bump_ptr_eq (st : State) (hpow : is_power_of_two st.arena.align = true)
    (hfit : st.arena.base + st.arena.offset + st.arena.align ≤ SIZE_MOD) :
    (st.arena.base + wsub (align_forward ((st.arena.base + st.arena.offset) % SIZE_MOD)
        st.arena.align) st.arena.base) % SIZE_MOD
      = align_forward (st.arena.base + st.arena.offset) st.arena.align ∧
    wsub (align_forward ((st.arena.base + st.arena.offset) % SIZE_MOD) st.arena.align)
        st.arena.base
      = align_forward (st.arena.base + st.arena.offset) st.arena.align - st.arena.base := by
  have ha := is_power_of_two_pos _ hpow
  have hcur : (st.arena.base + st.arena.offset) % SIZE_MOD = st.arena.base + st.arena.offset :=
    Nat.mod_eq_of_lt (by omega)
  rw [hcur]
  obtain ⟨h1, h2, _⟩ := align_forward_bounds (st.arena.base + st.arena.offset) st.arena.align
    hpow hfit
  have hw := wsub_of_le (align_forward (st.arena.base + st.arena.offset) st.arena.align)
    st.arena.base (by omega) (by omega)
  rw [hw]
  refine ⟨?_, rfl⟩
  rw [Nat.mod_eq_of_lt (by omega)]
  omega

theorem arena_alloc_aligned_null (st st1 : State) (size : Nat)
    (hpow : is_power_of_two st.arena.align = true) (hbase : 0 < st.arena.base)
    (hfit : st.arena.base + st.arena.offset + st.arena.align ≤ SIZE_MOD)
    (h : arena_alloc_aligned st size = (0, st1)) : st1 = st := by
  unfold arena_alloc_aligned at h
  simp only at h
  split at h
  · simp only [Prod.mk.injEq, true_and] at h
    exact h.symm
  · simp only [Prod.mk.injEq] at h
    have hp := (bump_ptr_eq st hpow hfit).1
    have hb := (align_forward_bounds (st.arena.base + st.arena.offset) st.arena.align hpow hfit).1
    omega

theorem arena_internal_alloc_null (fuel size : Nat) (st st1 : State)
    (hpow : is_power_of_two st.arena.align = true) (hbase : 0 < st.arena.base)
    (hfit : st.arena.base + st.arena.offset + st.arena.align ≤ SIZE_MOD)
    (h : arena_internal_alloc fuel size st = some (0, st1)) : st1 = st := by
  unfold arena_internal_alloc at h
  by_cases hz : size = 0
  · simp only [hz, if_true, Option.some.injEq, Prod.mk.injEq, true_and] at h
    exact h.symm
  · simp only [hz, if_false] at h
    split at h
    · simp at h
    · rename_i ptr st2 hfound
      by_cases hp : ptr = 0
      · subst hp
        simp only [ne_eq, not_true_eq_false, if_false, Option.some.injEq] at h
        have hst2 : st2 = st := by
          cases hs : st.arena.strategy with
          | FirstFit =>
            simp only [hs] at hfound
            exact find_first_block_null _ _ _ _ _ hfound
          | BestFit =>
            simp only [hs] at hfound
            exact find_best_block_null _ _ _ _ _ hfound
        subst hst2
        exact arena_alloc_aligned_null _ _ _ hpow hbase hfit h
      · rw [if_pos hp] at h
        simp only [Option.some.injEq, Prod.mk.injEq] at h
        exact absurd h.1 hp

/-- C4, as amended: a zero-size request returns null and leaves the state as it
was, from every state and with any fuel; and for an arena with a power-of-two
alignment, a non-null buffer and an aligned bump cursor that does not wrap
(`base + offset + align ≤ 2^64`), every call of `arena_alloc` that returns null
leaves the whole state (arena fields, free lists and memory) unchanged. -/
theorem C4_alloc_null_leaves_state (fuel size : Nat) (st : State) :
    arena_alloc fuel 0 st = some (0, st) ∧
    (is_power_of_two st.arena.align = true → 0 < st.arena.base →
      st.arena.base + st.arena.offset + st.arena.align ≤ SIZE_MOD →
      ∀ st1, arena_alloc fuel size st = some (0, st1) → st1 = st) := by
  refine ⟨by simp [arena_alloc, arena_internal_alloc, arena_lock, arena_unlock], ?_⟩
  intro hpow hbase hfit st1 h
  unfold arena_alloc arena_lock arena_unlock at h
  cases hi : arena_internal_alloc fuel size st with
  | none => simp [hi] at h
  | some r =>
    obtain ⟨p, st2⟩ := r
    simp only [hi, Option.some.injEq, Prod.mk.injEq] at h
    obtain ⟨h1, h2⟩ := h
    subst h1 h2
    exact arena_internal_alloc_null fuel size st _ hpow hbase hfit hi

/-- A fresh 20-byte arena at 4096 that is asked for 30 bytes: the call returns
null and the state is the one before the call. -/
theorem C4_witness :
    is_power_of_two (fresh 4096 20 16 AllocationStrategy.FirstFit).arena.align = true ∧
    0 < (fresh 4096 20 16 AllocationStrategy.FirstFit).arena.base ∧
    arena_alloc 1 30 (fresh 4096 20 16 AllocationStrategy.FirstFit)
      = some (0, fresh 4096 20 16 AllocationStrategy.FirstFit) ∧
    fresh 4096 20 16 AllocationStrategy.FirstFit = fresh 4096 20 16 AllocationStrategy.FirstFit :=
  ⟨by decide, by decide, rfl,
    (C4_alloc_null_leaves_state 1 30 (fresh 4096 20 16 AllocationStrategy.FirstFit)).2
      (by decide) (by decide) (by decide) _ rfl⟩

/-- C4 fails as stated, in three ways that each return null after the state has
changed.  Over a null buffer the bump path hands out address 0 while `offset`
and `committed` move from 0 to 8.  With the alignment 3, which is not a power of
two, `align_forward` yields 0 and a request of 4096 bytes from a buffer at 4096
is granted at address 0 with `committed` raised to 4096.  With a 24-byte buffer
that ends 8 bytes below 2^64 and is full, the aligned cursor wraps to 0 and a
request of 2^64 - 32 bytes is granted at address 0, `offset` falling from 24
to 0. -/
theorem C4_null_result_after_state_change :
    ((fresh 0 100 16 AllocationStrategy.FirstFit).view = (0, 0, [0, 0, 0, 0]) ∧
      (arena_alloc 1 8 (fresh 0 100 16 AllocationStrategy.FirstFit)).map
        (fun r => (r.1, r.2.view)) = some (0, (8, 8, [0, 0, 0, 0]))) ∧
    ((fresh 4096 100 3 AllocationStrategy.FirstFit).view = (0, 0, [0, 0, 0, 0]) ∧
      (arena_alloc 1 4096 (fresh 4096 100 3 AllocationStrategy.FirstFit)).map
        (fun r => (r.1, r.2.view)) = some (0, (0, 4096, [0, 0, 0, 0]))) ∧
    ((run 1 [Call.alloc 24] (fresh (2 ^ 64 - 32) 24 16 AllocationStrategy.FirstFit)).map
        (fun r => (r.1, r.2.view)) = some ([some (2 ^ 64 - 32)], (24, 24, [0, 0, 0, 0])) ∧
      (run 1 [Call.alloc 24, Call.alloc (2 ^ 64 - 32)]
        (fresh (2 ^ 64 - 32) 24 16 AllocationStrategy.FirstFit)).map
        (fun r => (r.1, r.2.view))
        = some ([some (2 ^ 64 - 32), some 0], (0, 2 ^ 64 - 8, [0, 0, 0, 0]))) := by
  decide

/-! ## C5: Best-Fit selection -/

theorem find_best_loop_spec (m : Mem) (size : Nat) (bs : List Nat) :
    ∀ (fuel prev curr best : Nat), bs ≠ [] → FreeList m curr bs → bs.length ≤ fuel →
      ∃ prev1 r, find_best_loop fuel m size prev curr best = some (prev1, r) ∧
        ((r = best ∧ ∀ b ∈ bs, size ≤ Block_size m b →
            best ≠ 0 ∧ Block_size m best ≤ Block_size m b) ∨
         ((best = 0 ∨ Block_size m r < Block_size m best) ∧ BestFitChoice m size bs r)) := by
  induction bs with
  | nil => intro _ _ _ _ h; exact absurd rfl h
  | cons c rest ih =>
    intro fuel prev curr best _ hl hf
    obtain ⟨hcur, hc0, hrest⟩ := hl
    subst hcur
    cases fuel with
    | zero => simp at hf
    | succ n =>
      have hn : rest.length ≤ n := by simpa using hf
      unfold find_best_loop
      rw [if_neg hc0]
      simp only
      by_cases htake : (decide (Block_size m curr ≥ size) &&
          (decide (best = 0) || (decide (best ≠ 0) &&
            decide (Block_size m curr < Block_size m best)))) = true
      · -- the current block becomes the candidate
        have hge : size ≤ Block_size m curr := by
          simp only [Bool.and_eq_true, decide_eq_true_eq] at htake
          exact htake.1
        have hbetter : best = 0 ∨ Block_size m curr < Block_size m best := by
          simp only [Bool.and_eq_true, Bool.or_eq_true, decide_eq_true_eq] at htake
          rcases htake.2 with h | h
          · exact Or.inl h
          · exact Or.inr h.2
        rw [htake]
        simp only [if_true, Bool.true_and, decide_eq_true_eq]
        by_cases hex : Block_size m curr = size
        · rw [if_pos hex]
          refine ⟨prev, curr, rfl, Or.inr ⟨hbetter, [], rest, rfl, hge, by simp, ?_⟩⟩
          intro b _ hb
          omega
        · rw [if_neg hex]
          by_cases hnext : Block_next m curr = 0
          · rw [if_pos hnext]
            rw [hnext] at hrest
            have hr := FreeList_null m rest hrest
            subst hr
            exact ⟨prev, curr, rfl, Or.inr ⟨hbetter, [], [], rfl, hge, by simp, by simp⟩⟩
          · rw [if_neg hnext]
            have hne := FreeList_nonnull m rest _ hrest hnext
            obtain ⟨p1, r, hrun, hsel⟩ := ih n curr (Block_next m curr) curr hne hrest hn
            refine ⟨p1, r, hrun, Or.inr ?_⟩
            rcases hsel with ⟨hr, hall⟩ | ⟨hlt, pre, post, hsplit, hsz, hpre, hpost⟩
            · subst hr
              refine ⟨hbetter, [], rest, rfl, hge, by simp, ?_⟩
              intro b hb hsb
              exact (hall b hb hsb).2
            · have hlt1 : Block_size m r < Block_size m curr := by
                rcases hlt with h | h
                · exact absurd h hc0
                · exact h
              refine ⟨?_, curr :: pre, post, by rw [hsplit]; rfl, hsz, ?_, hpost⟩
              · rcases hbetter with h | h
                · exact Or.inl h
                · exact Or.inr (by omega)
              · intro b hb hsb
                rcases List.mem_cons.1 hb with rfl | hin
                · exact hlt1
                · exact hpre b hin hsb
      · -- the candidate is kept
        have hkeep : size ≤ Block_size m curr →
            best ≠ 0 ∧ Block_size m best ≤ Block_size m curr := by
          intro hge
          simp only [Bool.and_eq_true, Bool.or_eq_true, decide_eq_true_eq, not_and, not_or,
            not_lt] at htake
          have := htake hge
          exact ⟨this.1, this.2 this.1⟩
        have htf : (decide (Block_size m curr ≥ size) &&
          (decide (best = 0) || (decide (best ≠ 0) &&
            decide (Block_size m curr < Block_size m best)))) = false := by
          simpa using htake
        rw [htf]
        simp only [Bool.false_and, Bool.false_eq_true, if_false]
        by_cases hnext : Block_next m curr = 0
        · rw [if_pos hnext]
          rw [hnext] at hrest
          have hr := FreeList_null m rest hrest
          subst hr
          refine ⟨prev, best, rfl, Or.inl ⟨rfl, ?_⟩⟩
          intro b hb hsb
          have hbc : b = curr := by simpa using hb
          subst hbc
          exact hkeep hsb
        · rw [if_neg hnext]
          have hne := FreeList_nonnull m rest _ hrest hnext
          obtain ⟨p1, r, hrun, hsel⟩ := ih n curr (Block_next m curr) best hne hrest hn
          refine ⟨p1, r, hrun, ?_⟩
          rcases hsel with ⟨hr, hall⟩ | ⟨hlt, pre, post, hsplit, hsz, hpre, hpost⟩
          · refine Or.inl ⟨hr, ?_⟩
            intro b hb hsb
            rcases List.mem_cons.1 hb with rfl | hin
            · exact hkeep hsb
            · exact hall b hin hsb
          · refine Or.inr ⟨hlt, curr :: pre, post, by rw [hsplit]; rfl, hsz, ?_, hpost⟩
            intro b hb hsb
            rcases List.mem_cons.1 hb with rfl | hin
            · have hk := hkeep hsb
              rcases hlt with h | h
              · exact absurd h hk.1
              · omega
            · exact hpre b hin hsb

/-- C5: on a free list that is a null-terminated chain of blocks `bs`, with fuel
for one loop test per block, the Best-Fit search returns; it returns null
exactly when no block has stored size at least the request, and otherwise it
returns the earliest block whose stored size is least among the blocks that are
large enough. -/
theorem C5_best_fit_selection (fuel size : Nat) (st : State) (cls : BlockClass)
    (bs : List Nat) (hl : FreeList st.mem (st.arena.free_list cls) bs)
    (hf : bs.length ≤ fuel) :
    ∃ r st1, arena_free_list_find_best_block fuel st cls size = some (r, st1) ∧
      (r = 0 ↔ ∀ b ∈ bs, Block_size st.mem b < size) ∧
      (r ≠ 0 → BestFitChoice st.mem size bs r) := by
  unfold arena_free_list_find_best_block
  by_cases hh : st.arena.free_list cls = 0
  · rw [if_pos hh]
    rw [hh] at hl
    have hb := FreeList_null _ _ hl
    subst hb
    exact ⟨0, st, rfl, by simp, fun h => absurd rfl h⟩
  · rw [if_neg hh]
    have hne := FreeList_nonnull _ _ _ hl hh
    have hnz := FreeList_ne_zero _ _ _ hl
    obtain ⟨p1, r, hrun, hsel⟩ :=
      find_best_loop_spec st.mem size bs fuel 0 (st.arena.free_list cls) 0 hne hl hf
    rw [hrun]
    simp only
    rcases hsel with ⟨hr, hall⟩ | ⟨_, pre, post, hsplit, hsz, hpre, hpost⟩
    · subst hr
      refine ⟨0, st, by simp, ?_, fun h => absurd rfl h⟩
      simp only [true_iff]
      intro b hb
      by_contra hcon
      exact (hall b hb (by omega)).1 rfl
    · have hrin : r ∈ bs := by rw [hsplit]; simp
      have hr0 : r ≠ 0 := hnz r hrin
      have hres : ∃ st1, (if r ≠ 0 then
            if p1 ≠ 0 then some (r, st.set_next p1 (Block_next st.mem r))
            else some (r, st.set_free_list cls (Block_next st.mem r))
          else some (0, st)) = some (r, st1) := by
        rw [if_pos hr0]
        by_cases hp : p1 ≠ 0
        · rw [if_pos hp]; exact ⟨_, rfl⟩
        · rw [if_neg hp]; exact ⟨_, rfl⟩
      obtain ⟨st1, hst1⟩ := hres
      refine ⟨r, st1, hst1, ?_, fun _ => ⟨pre, post, hsplit, hsz, hpre, hpost⟩⟩
      constructor
      · intro h; exact absurd h hr0
      · intro h
        have := h r hrin
        omega

/-- The Small free list 40 → 25 → 60 under Best-Fit and a request of 30 bytes:
the list is a null-terminated chain and the search returns the 40-byte block at
4181. -/
theorem C5_witness :
    FreeList (list_40_25_60 AllocationStrategy.BestFit).mem
      ((list_40_25_60 AllocationStrategy.BestFit).arena.free_list BlockClass.Small)
      [4181, 4156, 4096] ∧
    [Block_size (list_40_25_60 AllocationStrategy.BestFit).mem 4181,
      Block_size (list_40_25_60 AllocationStrategy.BestFit).mem 4156,
      Block_size (list_40_25_60 AllocationStrategy.BestFit).mem 4096] = [40, 25, 60] ∧
    (arena_free_list_find_best_block 3 (list_40_25_60 AllocationStrategy.BestFit)
      BlockClass.Small 30).map (fun r => r.1) = some 4181 ∧
    ∃ r st1, arena_free_list_find_best_block 3 (list_40_25_60 AllocationStrategy.BestFit)
        BlockClass.Small 30 = some (r, st1) ∧
      (r = 0 ↔ ∀ b ∈ [4181, 4156, 4096],
        Block_size (list_40_25_60 AllocationStrategy.BestFit).mem b < 30) ∧
      (r ≠ 0 → BestFitChoice (list_40_25_60 AllocationStrategy.BestFit).mem 30
        [4181, 4156, 4096] r) :=
  ⟨by decide, by decide, by decide,
    C5_best_fit_selection 3 30 (list_40_25_60 AllocationStrategy.BestFit) BlockClass.Small
      [4181, 4156, 4096] (by decide) (by decide)⟩

/-! ## C6: what Best-Fit unlinks -/

/-- C6 (the code departs from it): the Small free list is 4181 (40 bytes) →
4156 (25 bytes) → 4096 (60 bytes) and 30 bytes are requested under Best-Fit.
The search returns the 40-byte block at 4181, yet afterwards the head of the
list is still 4181, and the `next` field of the 25-byte block points to the
25-byte block itself: the list is not 25 → 60. -/
theorem C6_best_fit_leaves_winner_linked :
    FreeList (list_40_25_60 AllocationStrategy.BestFit).mem
      ((list_40_25_60 AllocationStrategy.BestFit).arena.free_list BlockClass.Small)
      [4181, 4156, 4096] ∧
    [Block_size (list_40_25_60 AllocationStrategy.BestFit).mem 4181,
      Block_size (list_40_25_60 AllocationStrategy.BestFit).mem 4156,
      Block_size (list_40_25_60 AllocationStrategy.BestFit).mem 4096] = [40, 25, 60] ∧
    (arena_free_list_find_best_block 3 (list_40_25_60 AllocationStrategy.BestFit)
        BlockClass.Small 30).map
      (fun r => (r.1, r.2.arena.free_list BlockClass.Small, Block_next r.2.mem 4181,
        Block_next r.2.mem 4156))
      = some (4181, 4181, 4156, 4156) := by
  refine ⟨?_, ?_, ?_⟩
  · decide
  · decide
  · decide

/-! ## C7: First-Fit search and unlinking -/

theorem Block_next_store_next_other (m : Mem) (p v b : Nat) (h : HeaderDisjoint b p) :
    Block_next (store64 m (p + Block_next_off) v) b = Block_next m b := by
  unfold HeaderDisjoint sizeof_Block at h
  unfold Block_next Block_next_off
  exact load64_store64_disj m _ _ v (by omega)

theorem Block_next_store_next_same (m : Mem) (p v : Nat) (hv : v < SIZE_MOD) :
    Block_next (store64 m (p + Block_next_off) v) p = v := by
  unfold Block_next
  exact load64_store64_same m _ v hv

theorem Block_size_store_next (m : Mem) (p v b : Nat) (h : b = p ∨ HeaderDisjoint b p) :
    Block_size (store64 m (p + Block_next_off) v) b = Block_size m b := by
  unfold HeaderDisjoint sizeof_Block at h
  unfold Block_size Block_next_off
  exact load64_store64_disj m _ _ v (by omega)

theorem FreeList_frame (m m1 : Mem) (bs : List Nat) (head : Nat)
    (hsame : ∀ b ∈ bs, Block_next m1 b = Block_next m b) (h : FreeList m head bs) :
    FreeList m1 head bs := by
  induction bs generalizing head with
  | nil => exact h
  | cons c rest ih =>
    obtain ⟨hc, hc0, hrest⟩ := h
    refine ⟨hc, hc0, ?_⟩
    rw [hsame c (by simp)]
    exact ih _ (fun b hb => hsame b (by simp [hb])) hrest

theorem FreeList_unlink (m : Mem) (pre : List Nat) (p r : Nat) (post : List Nat) (head : Nat)
    (hl : FreeList m head (pre ++ p :: r :: post))
    (hd : (pre ++ p :: r :: post).Pairwise HeaderDisjoint) :
    FreeList (store64 m (p + Block_next_off) (Block_next m r)) head (pre ++ p :: post) := by
  induction pre generalizing head with
  | nil =>
    obtain ⟨hp, hp0, hr, _, hpost⟩ := hl
    refine ⟨hp, hp0, ?_⟩
    rw [Block_next_store_next_same m p (Block_next m r) (load64_lt _ _)]
    refine FreeList_frame m _ post _ ?_ hpost
    intro b hb
    have hdis : HeaderDisjoint p b := by
      simp only [List.nil_append, List.pairwise_cons] at hd
      exact hd.1 b (by simp [hb])
    refine Block_next_store_next_other m p _ b ?_
    unfold HeaderDisjoint at *
    omega
  | cons c rest ih =>
    obtain ⟨hc, hc0, hrest⟩ := hl
    simp only [List.cons_append, List.pairwise_cons] at hd
    refine ⟨hc, hc0, ?_⟩
    rw [Block_next_store_next_other m p _ c (hd.1 p (by simp))]
    exact ih _ hrest hd.2

theorem find_first_loop_miss (st : State) (cls : BlockClass) (size : Nat) (bs : List Nat) :
    ∀ (fuel prev curr : Nat), FreeList st.mem curr bs →
      (∀ b ∈ bs, Block_size st.mem b < size) → bs.length < fuel →
      find_first_loop fuel st cls size prev curr = some (0, st) := by
  induction bs with
  | nil =>
    intro fuel prev curr hl _ hf
    cases fuel with
    | zero => simp at hf
    | succ n =>
      have hc : curr = 0 := hl
      unfold find_first_loop
      rw [if_pos hc]
  | cons c rest ih =>
    intro fuel prev curr hl hsmall hf
    obtain ⟨hc, hc0, hrest⟩ := hl
    subst hc
    cases fuel with
    | zero => simp at hf
    | succ n =>
      unfold find_first_loop
      rw [if_neg hc0, if_neg (by have := hsmall curr (by simp); omega)]
      exact ih n curr _ hrest (fun b hb => hsmall b (by simp [hb])) (by simpa using hf)

theorem find_first_loop_hit (st : State) (cls : BlockClass) (size r : Nat)
    (post : List Nat) (hr : size ≤ Block_size st.mem r) (pre : List Nat) :
    ∀ (fuel prev curr : Nat), FreeList st.mem curr (pre ++ r :: post) →
      (∀ b ∈ pre, Block_size st.mem b < size) → pre.length < fuel →
      find_first_loop fuel st cls size prev curr =
        some (r, if pre.getLastD prev ≠ 0
          then st.set_next (pre.getLastD prev) (Block_next st.mem r)
          else st.set_free_list cls (Block_next st.mem r)) := by
  induction pre with
  | nil =>
    intro fuel prev curr hl _ hf
    obtain ⟨hc, hc0, _⟩ := hl
    subst hc
    cases fuel with
    | zero => simp at hf
    | succ n =>
      unfold find_first_loop
      rw [if_neg hc0, if_pos hr, List.getLastD_nil]
      by_cases hp : prev ≠ 0
      · rw [if_pos hp, if_pos hp]
      · rw [if_neg hp, if_neg hp]
  | cons c rest ih =>
    intro fuel prev curr hl hsmall hf
    obtain ⟨hc, hc0, hrest⟩ := hl
    subst hc
    cases fuel with
    | zero => simp at hf
    | succ n =>
      unfold find_first_loop
      rw [if_neg hc0, if_neg (by have := hsmall curr (by simp); omega), List.getLastD_cons]
      exact ih n curr _ hrest (fun b hb => hsmall b (by simp [hb])) (by simpa using hf)

/-- C7: on a free list that is a null-terminated chain of blocks `bs` with
pairwise disjoint headers, and with fuel for one loop test per block plus one,
the First-Fit search (a) returns null and leaves the whole state unchanged when
no block has stored size at least the request, and (b) otherwise returns the
first block `r` in head-to-tail order that is large enough; afterwards the list
of this class is the old list without `r`, in the old order, every remaining
block keeps its stored size, the other free lists, `offset` and `committed` are
unchanged, and memory is unchanged outside the headers of the listed blocks. -/
theorem C7_first_fit (fuel size : Nat) (st : State) (cls : BlockClass) (bs : List Nat)
    (hl : FreeList st.mem (st.arena.free_list cls) bs)
    (hd : bs.Pairwise HeaderDisjoint) (hf : bs.length < fuel) :
    ((∀ b ∈ bs, Block_size st.mem b < size) →
      arena_free_list_find_first_block fuel st cls size = some (0, st)) ∧
    (∀ pre r post, bs = pre ++ r :: post → (∀ b ∈ pre, Block_size st.mem b < size) →
      size ≤ Block_size st.mem r →
      ∃ st1, arena_free_list_find_first_block fuel st cls size = some (r, st1) ∧
        FreeList st1.mem (st1.arena.free_list cls) (pre ++ post) ∧
        (∀ b ∈ pre ++ post, Block_size st1.mem b = Block_size st.mem b) ∧
        (∀ c, c ≠ cls → st1.arena.free_list c = st.arena.free_list c) ∧
        st1.arena.offset = st.arena.offset ∧ st1.arena.committed = st.arena.committed ∧
        (∀ a, (∀ b ∈ bs, a < b ∨ b + sizeof_Block ≤ a) → st1.mem a = st.mem a)) := by
  constructor
  · intro hsmall
    unfold arena_free_list_find_first_block
    by_cases hh : st.arena.free_list cls = 0
    · rw [if_pos hh]
    · rw [if_neg hh]
      exact find_first_loop_miss st cls size bs fuel 0 _ hl hsmall hf
  · intro pre r post hsplit hsmall hr
    subst hsplit
    have hnz := FreeList_ne_zero _ _ _ hl
    have hh : st.arena.free_list cls ≠ 0 :=
      fun h => by
        rw [h] at hl
        have := FreeList_null _ _ hl
        simp at this
    have hrun := find_first_loop_hit st cls size r post hr pre fuel 0
      (st.arena.free_list cls) hl hsmall (by simp at hf; omega)
    unfold arena_free_list_find_first_block
    rw [if_neg hh, hrun]
    rcases List.eq_nil_or_concat pre with hpre | ⟨pre1, p, hpre⟩
    · -- the head of the list is taken
      subst hpre
      rw [List.getLastD_nil, if_neg (by simp)]
      refine ⟨_, rfl, ?_, fun _ _ => rfl, ?_, rfl, rfl, fun _ _ => rfl⟩
      · simp only [State.set_free_list, Function.update_same, List.nil_append]
        exact hl.2.2
      · intro c hc
        simp only [State.set_free_list]
        exact Function.update_noteq hc _ _
    · -- an inner block is taken: its predecessor is relinked
      subst hpre
      have hp0 : p ≠ 0 := hnz p (by simp)
      rw [List.concat_eq_append, List.getLastD_concat, if_pos hp0]
      rw [List.concat_eq_append, List.append_assoc] at hl hd
      refine ⟨_, rfl, ?_, ?_, fun _ _ => rfl, rfl, rfl, ?_⟩
      · simp only [State.set_next, List.concat_eq_append, List.append_assoc]
        exact FreeList_unlink st.mem pre1 p r post _ hl hd
      · intro b hb
        simp only [State.set_next]
        refine Block_size_store_next st.mem p _ b ?_
        by_cases hbp : b = p
        · exact Or.inl hbp
        · right
          have hmem : b ∈ pre1 ∨ b ∈ post := by
            simp only [List.concat_eq_append, List.append_assoc, List.mem_append,
              List.mem_singleton] at hb
            rcases hb with h | h | h
            · exact Or.inl h
            · exact absurd h hbp
            · exact Or.inr h
          rw [List.pairwise_append] at hd
          rcases hmem with h | h
          · exact hd.2.2 b h p (by simp)
          · have := (List.pairwise_cons.1 hd.2.1).1 b (by simp [h])
            unfold HeaderDisjoint at *
            omega
      · intro a ha
        simp only [State.set_next]
        have := ha p (by simp)
        unfold sizeof_Block at this
        refine store64_other st.mem _ _ a ?_
        unfold Block_next_off
        omega

/-- The Small free list 40 → 25 → 60 under First-Fit and a request of 30 bytes:
the search returns the 40-byte block at 4181 and the list that is left is
25 → 60. -/
theorem C7_witness :
    FreeList (list_40_25_60 AllocationStrategy.FirstFit).mem
      ((list_40_25_60 AllocationStrategy.FirstFit).arena.free_list BlockClass.Small)
      [4181, 4156, 4096] ∧
    [Block_size (list_40_25_60 AllocationStrategy.FirstFit).mem 4181,
      Block_size (list_40_25_60 AllocationStrategy.FirstFit).mem 4156,
      Block_size (list_40_25_60 AllocationStrategy.FirstFit).mem 4096] = [40, 25, 60] ∧
    ∃ st1, arena_free_list_find_first_block 4 (list_40_25_60 AllocationStrategy.FirstFit)
        BlockClass.Small 30 = some (4181, st1) ∧
      FreeList st1.mem (st1.arena.free_list BlockClass.Small) [4156, 4096] ∧
      [Block_size st1.mem 4156, Block_size st1.mem 4096] = [25, 60] := by
  have hl : FreeList (list_40_25_60 AllocationStrategy.FirstFit).mem
      ((list_40_25_60 AllocationStrategy.FirstFit).arena.free_list BlockClass.Small)
      [4181, 4156, 4096] := by
    decide
  have hsz : [Block_size (list_40_25_60 AllocationStrategy.FirstFit).mem 4181,
      Block_size (list_40_25_60 AllocationStrategy.FirstFit).mem 4156,
      Block_size (list_40_25_60 AllocationStrategy.FirstFit).mem 4096] = [40, 25, 60] := by
    decide
  obtain ⟨st1, h1, h2, h3, _⟩ :=
    (C7_first_fit 4 30 (list_40_25_60 AllocationStrategy.FirstFit) BlockClass.Small
      [4181, 4156, 4096] hl (by decide) (by decide)).2
      [] 4181 [4156, 4096] rfl (by simp) (by decide)
  refine ⟨hl, hsz, st1, h1, h2, ?_⟩
  rw [h3 4156 (by simp), h3 4096 (by simp)]
  decide

/-! ## C8, C9, C10: `arena_realloc` -/

theorem find_first_loop_config (fuel : Nat) (st : State) (cls : BlockClass)
    (size prev curr r : Nat) (st1 : State)
    (h : find_first_loop fuel st cls size prev curr = some (r, st1)) :
    st1.arena.config = st.arena.config := by
  induction fuel generalizing prev curr with
  | zero => simp [find_first_loop] at h
  | succ n ih =>
    unfold find_first_loop at h
    split at h
    · simp only [Option.some.injEq, Prod.mk.injEq] at h
      rw [← h.2]
    · split at h
      · split at h <;>
          (simp only [Option.some.injEq, Prod.mk.injEq] at h; rw [← h.2]; rfl)
      · exact ih _ _ h

theorem find_first_block_config (fuel : Nat) (st : State) (cls : BlockClass)
    (size r : Nat) (st1 : State)
    (h : arena_free_list_find_first_block fuel st cls size = some (r, st1)) :
    st1.arena.config = st.arena.config := by
  unfold arena_free_list_find_first_block at h
  split at h
  · simp only [Option.some.injEq, Prod.mk.injEq] at h
    rw [← h.2]
  · exact find_first_loop_config _ _ _ _ _ _ _ _ h

theorem find_best_block_config (fuel : Nat) (st : State) (cls : BlockClass)
    (size r : Nat) (st1 : State)
    (h : arena_free_list_find_best_block fuel st cls size = some (r, st1)) :
    st1.arena.config = st.arena.config := by
  unfold arena_free_list_find_best_block at h
  split at h
  · simp only [Option.some.injEq, Prod.mk.injEq] at h
    rw [← h.2]
  · split at h
    · simp at h
    · split at h
      · split at h <;>
          (simp only [Option.some.injEq, Prod.mk.injEq] at h; rw [← h.2]; rfl)
      · simp only [Option.some.injEq, Prod.mk.injEq] at h
        rw [← h.2]

/-- The shape of `arena_internal_alloc` for a positive size: the search of the
configured strategy, then either the reuse or the bump path. -/
theorem arena_internal_alloc_pos (fuel size : Nat) (st : State) (hz : size ≠ 0) (r : Nat)
    (st1 : State) (h : arena_internal_alloc fuel size st = some (r, st1)) :
    ∃ ptr st2,
      ((st.arena.strategy = AllocationStrategy.FirstFit ∧
          arena_free_list_find_first_block fuel st (get_block_class size) size
            = some (ptr, st2)) ∨
       (st.arena.strategy = AllocationStrategy.BestFit ∧
          arena_free_list_find_best_block fuel st (get_block_class size) size
            = some (ptr, st2))) ∧
      ((ptr ≠ 0 ∧ r = ptr ∧ st1 = { st2 with arena :=
          { st2.arena with committed := (st2.arena.committed + size) % SIZE_MOD } }) ∨
       (ptr = 0 ∧ arena_alloc_aligned st2 size = (r, st1))) := by
  unfold arena_internal_alloc at h
  rw [if_neg hz] at h
  simp only at h
  cases hs : st.arena.strategy with
  | FirstFit =>
    rw [hs] at h
    simp only at h
    cases hf : arena_free_list_find_first_block fuel st (get_block_class size) size with
    | none => rw [hf] at h; simp at h
    | some q =>
      obtain ⟨ptr, st2⟩ := q
      rw [hf] at h
      simp only at h
      refine ⟨ptr, st2, Or.inl ⟨rfl, rfl⟩, ?_⟩
      by_cases hp : ptr = 0
      · rw [if_neg (by simpa using hp)] at h
        simp only [Option.some.injEq] at h
        exact Or.inr ⟨hp, h⟩
      · rw [if_pos hp] at h
        simp only [Option.some.injEq, Prod.mk.injEq] at h
        exact Or.inl ⟨hp, h.1.symm, h.2.symm⟩
  | BestFit =>
    rw [hs] at h
    simp only at h
    cases hf : arena_free_list_find_best_block fuel st (get_block_class size) size with
    | none => rw [hf] at h; simp at h
    | some q =>
      obtain ⟨ptr, st2⟩ := q
      rw [hf] at h
      simp only at h
      refine ⟨ptr, st2, Or.inr ⟨rfl, rfl⟩, ?_⟩
      by_cases hp : ptr = 0
      · rw [if_neg (by simpa using hp)] at h
        simp only [Option.some.injEq] at h
        exact Or.inr ⟨hp, h⟩
      · rw [if_pos hp] at h
        simp only [Option.some.injEq, Prod.mk.injEq] at h
        exact Or.inl ⟨hp, h.1.symm, h.2.symm⟩

theorem arena_alloc_aligned_config (st : State) (size : Nat) :
    (arena_alloc_aligned st size).2.arena.config = st.arena.config := by
  unfold arena_alloc_aligned
  simp only
  split <;> rfl

theorem arena_internal_alloc_config (fuel size : Nat) (st : State) (r : Nat) (st1 : State)
    (h : arena_internal_alloc fuel size st = some (r, st1)) :
    st1.arena.config = st.arena.config := by
  by_cases hz : size = 0
  · unfold arena_internal_alloc at h
    rw [if_pos hz] at h
    simp only [Option.some.injEq, Prod.mk.injEq] at h
    rw [← h.2]
  · obtain ⟨ptr, st2, hsearch, hres⟩ := arena_internal_alloc_pos fuel size st hz r st1 h
    have h2 : st2.arena.config = st.arena.config := by
      rcases hsearch with ⟨_, hf⟩ | ⟨_, hf⟩
      · exact find_first_block_config _ _ _ _ _ _ hf
      · exact find_best_block_config _ _ _ _ _ _ hf
    rcases hres with ⟨_, _, hst⟩ | ⟨_, hb⟩
    · rw [hst, ← h2]
      rfl
    · have := arena_alloc_aligned_config st2 size
      rw [hb] at this
      rw [← h2]
      exact this

/-- The padded size recorded by a release, when the end of the region can be
rounded up without wrapping. -/
theorem padded_size_bounds (ptr size a : Nat) (hpow : is_power_of_two a = true)
    (hfit : ptr + size + a ≤ SIZE_MOD) :
    size ≤ (size + wsub (align_forward ((ptr + size) % SIZE_MOD) a) ((ptr + size) % SIZE_MOD))
        % SIZE_MOD ∧
    (size + wsub (align_forward ((ptr + size) % SIZE_MOD) a) ((ptr + size) % SIZE_MOD))
        % SIZE_MOD < size + a := by
  have ha := is_power_of_two_pos a hpow
  have hx : (ptr + size) % SIZE_MOD = ptr + size := Nat.mod_eq_of_lt (by omega)
  rw [hx]
  obtain ⟨h1, h2, _⟩ := align_forward_bounds (ptr + size) a hpow hfit
  rw [wsub_of_le _ _ (by omega) h1, Nat.mod_eq_of_lt (by omega)]
  omega

/-- What a release of at least `sizeof(Block)` bytes leaves behind. -/
theorem arena_recycle_alloc_large (st : State) (ptr size : Nat) (cls : BlockClass)
    (hsz : sizeof_Block ≤ size) :
    (arena_recycle_alloc st ptr size cls).2.arena.free_list cls = ptr ∧
    (∀ c, c ≠ cls →
      (arena_recycle_alloc st ptr size cls).2.arena.free_list c = st.arena.free_list c) ∧
    (arena_recycle_alloc st ptr size cls).2.arena.committed = wsub st.arena.committed size ∧
    (arena_recycle_alloc st ptr size cls).2.arena.offset = st.arena.offset ∧
    (arena_recycle_alloc st ptr size cls).2.arena.config = st.arena.config ∧
    Block_size (arena_recycle_alloc st ptr size cls).2.mem ptr =
      (size + wsub (align_forward ((ptr + size) % SIZE_MOD) st.arena.align)
        ((ptr + size) % SIZE_MOD)) % SIZE_MOD ∧
    (st.arena.free_list cls < SIZE_MOD →
      Block_next (arena_recycle_alloc st ptr size cls).2.mem ptr = st.arena.free_list cls) ∧
    (∀ a, a < ptr ∨ ptr + sizeof_Block ≤ a →
      (arena_recycle_alloc st ptr size cls).2.mem a = st.mem a) := by
  unfold arena_recycle_alloc
  rw [if_neg (by omega)]
  refine ⟨Function.update_same _ _ _, fun c hc => Function.update_noteq hc _ _, rfl, rfl, rfl,
    ?_, ?_, ?_⟩
  · show load64 (store64 (store64 st.mem ptr _) (ptr + Block_next_off) _) ptr = _
    unfold Block_next_off
    rw [load64_store64_disj _ _ _ _ (by omega)]
    exact load64_store64_same _ _ _ (Nat.mod_lt _ (by unfold SIZE_MOD; omega))
  · intro hlt
    show load64 (store64 (store64 st.mem ptr _) (ptr + Block_next_off) _)
      (ptr + Block_next_off) = _
    exact load64_store64_same _ _ _ hlt
  · intro a ha
    show store64 (store64 st.mem ptr _) (ptr + Block_next_off) _ a = _
    unfold sizeof_Block at ha
    unfold Block_next_off
    rw [store64_other _ _ _ _ (by omega), store64_other _ _ _ _ (by omega)]

theorem config_fields (a b : Arena) (h : a.config = b.config) :
    a.base = b.base ∧ a.align = b.align ∧ a.size = b.size ∧ a.strategy = b.strategy := by
  unfold Arena.config at h
  simp only [Prod.mk.injEq] at h
  exact ⟨h.1, h.2.1, h.2.2.1, h.2.2.2.1⟩

theorem arena_recycle_alloc_small (st : State) (ptr size : Nat) (cls : BlockClass)
    (h : size < sizeof_Block) : arena_recycle_alloc st ptr size cls = (0, st) := by
  unfold arena_recycle_alloc
  rw [if_pos h]

/-- C8: `arena_realloc` with `new_size ≤ old_size` returns the given pointer and
the unchanged state (arena fields, free lists and memory), from any state, for
any pointer and without consuming fuel. -/
theorem C8_realloc_shrink_is_noop (fuel new_size old_size ptr : Nat) (st : State)
    (h : new_size ≤ old_size) :
    arena_realloc fuel new_size old_size ptr st = some (ptr, st) := by
  unfold arena_realloc
  rw [if_pos h]

/-- Shrinking a region of 69 bytes to 40 bytes in `grow_arena`. -/
theorem C8_witness :
    40 ≤ 69 ∧ arena_realloc 0 40 69 4096 grow_arena = some (4096, grow_arena) :=
  ⟨by decide, C8_realloc_shrink_is_noop 0 40 69 4096 grow_arena (by decide)⟩

/-- One growing call in isolation: let a growing `arena_realloc` obtain a
non-null new region that does not overlap the old region, the allocation having left the bytes of the old region
as they were.  Then the call returns the new region; its first `old_size` bytes
are the bytes the old region had at the time of the call; the final state is the
one `arena_free(old_size, ptr)` produces after the copy; and when `old_size` is
at least `sizeof(Block)` (power-of-two alignment, non-null `ptr`, no wrap when
the end of the old region is rounded up) the old region is the head of the free
list of its class with stored size at least `old_size`, so that under First-Fit
the next `arena_alloc` of `old_size` bytes returns the old pointer. -/
theorem realloc_grow_spec (fuel new_size old_size ptr new_ptr : Nat) (st st1 : State)
    (hgrow : old_size < new_size)
    (halloc : arena_internal_alloc fuel new_size st = some (new_ptr, st1))
    (hnew : new_ptr ≠ 0)
    (hdisj : new_ptr + old_size ≤ ptr ∨ ptr + old_size ≤ new_ptr)
    (hkept : ∀ i, i < old_size → st1.mem (ptr + i) = st.mem (ptr + i)) :
    ∃ st3, arena_realloc fuel new_size old_size ptr st = some (new_ptr, st3) ∧
      (∀ i, i < old_size → st3.mem (new_ptr + i) = st.mem (ptr + i)) ∧
      st3 = arena_free old_size ptr { st1 with mem := memcpy st1.mem new_ptr ptr old_size } ∧
      (sizeof_Block ≤ old_size → is_power_of_two st.arena.align = true → ptr ≠ 0 →
        ptr + old_size + st.arena.align ≤ SIZE_MOD →
        st3.arena.free_list (get_block_class old_size) = ptr ∧
        old_size ≤ Block_size st3.mem ptr ∧
        (st.arena.strategy = AllocationStrategy.FirstFit → ∀ fuel2, 0 < fuel2 →
          ∃ st4, arena_alloc fuel2 old_size st3 = some (ptr, st4))) := by
  have hcfg := config_fields _ _ (arena_internal_alloc_config fuel new_size st new_ptr st1 halloc)
  refine ⟨arena_free old_size ptr { st1 with mem := memcpy st1.mem new_ptr ptr old_size },
    ?_, ?_, rfl, ?_⟩
  · unfold arena_realloc
    rw [if_neg (by omega)]
    unfold arena_lock
    rw [halloc]
    simp only
    rw [if_pos hnew]
    rfl
  · intro i hi
    have hcopy : memcpy st1.mem new_ptr ptr old_size (new_ptr + i) = st.mem (ptr + i) := by
      unfold memcpy
      rw [if_pos (by omega), Nat.add_sub_cancel_left]
      exact hkept i hi
    unfold arena_free arena_lock arena_unlock
    by_cases hsz : sizeof_Block ≤ old_size
    · rw [(arena_recycle_alloc_large _ ptr old_size _ hsz).2.2.2.2.2.2.2 (new_ptr + i)
        (by unfold sizeof_Block at *; omega)]
      exact hcopy
    · have hsmall := arena_recycle_alloc_small
        { st1 with mem := memcpy st1.mem new_ptr ptr old_size } ptr old_size
        (get_block_class old_size) (by omega)
      simp only [hsmall]
      exact hcopy
  · intro hsz hpow hp0 hfit
    unfold arena_free arena_lock arena_unlock
    obtain ⟨hhead, _, _, _, hcfg2, hsize, _, _⟩ :=
      arena_recycle_alloc_large { st1 with mem := memcpy st1.mem new_ptr ptr old_size } ptr
        old_size (get_block_class old_size) hsz
    have hcfg3 := config_fields _ _ hcfg2
    have hstored : old_size ≤ Block_size (arena_recycle_alloc
        { st1 with mem := memcpy st1.mem new_ptr ptr old_size } ptr old_size
        (get_block_class old_size)).2.mem ptr := by
      rw [hsize]
      have hal : st1.arena.align = st.arena.align := hcfg.2.1
      simp only [hal]
      exact (padded_size_bounds ptr old_size st.arena.align hpow hfit).1
    refine ⟨hhead, hstored, ?_⟩
    intro hstrat fuel2 hfuel
    obtain ⟨n, rfl⟩ : ∃ n, fuel2 = n + 1 := ⟨fuel2 - 1, by omega⟩
    have hs3 : (arena_recycle_alloc { st1 with mem := memcpy st1.mem new_ptr ptr old_size }
        ptr old_size (get_block_class old_size)).2.arena.strategy
        = AllocationStrategy.FirstFit := by
      rw [hcfg3.2.2.2]
      exact hcfg.2.2.2.trans hstrat
    unfold arena_alloc arena_lock arena_unlock arena_internal_alloc
    rw [if_neg (by unfold sizeof_Block at hsz; omega)]
    simp only [hs3]
    unfold arena_free_list_find_first_block
    rw [hhead, if_neg hp0]
    unfold find_first_loop
    rw [if_neg hp0, if_pos hstored]
    simp only [ne_eq, not_true_eq_false, if_false]
    rw [if_pos hp0]
    exact ⟨_, rfl⟩

/-- Growing the 69-byte region of `grow_arena` to 100 bytes (the resize of
`test_arena.c`): the new region is bump-allocated at 4176. -/
theorem realloc_grow_spec_example :
    arena_internal_alloc 1 100 grow_arena = some (4176, grow_arena_bumped) ∧
    (4176 + 69 ≤ 4096 ∨ 4096 + 69 ≤ 4176) ∧
    ∃ st3, arena_realloc 1 100 69 4096 grow_arena = some (4176, st3) ∧
      (∀ i, i < 69 → st3.mem (4176 + i) = grow_arena.mem (4096 + i)) ∧
      st3.arena.free_list (get_block_class 69) = 4096 ∧
      69 ≤ Block_size st3.mem 4096 ∧
      ∃ st4, arena_alloc 1 69 st3 = some (4096, st4) := by
  have halloc : arena_internal_alloc 1 100 grow_arena = some (4176, grow_arena_bumped) := by
    rfl
  obtain ⟨st3, h1, h2, _, h4⟩ :=
    realloc_grow_spec 1 100 69 4096 4176 grow_arena grow_arena_bumped (by decide) halloc
      (by decide) (by decide) (fun _ _ => rfl)
  obtain ⟨h5, h6, h7⟩ := h4 (by decide) (by decide) (by decide) (by decide)
  exact ⟨halloc, by decide, st3, h1, h2, h5, h6, h7 (by decide) 1 (by decide)⟩

/-- One failing call in isolation: from a state with a power-of-two alignment,
a non-null buffer and an aligned bump cursor that does not wrap, let the
allocation inside a growing `arena_realloc` return null.  Then `arena_realloc` returns null and its final
state is the one `arena_free(old_size, ptr)` produces from the state before the
call; for `old_size` at least `sizeof(Block)`, `committed` is decreased by
`old_size` (as a `size_t`), the old region is the head of the free list of its
class with the former head as its `next`, the other free lists and the bump
offset are unchanged. -/
theorem realloc_failure_releases (fuel new_size old_size ptr : Nat) (st st1 : State)
    (hgrow : old_size < new_size) (hsz : sizeof_Block ≤ old_size)
    (hpow : is_power_of_two st.arena.align = true) (hbase : 0 < st.arena.base)
    (hfit : st.arena.base + st.arena.offset + st.arena.align ≤ SIZE_MOD)
    (hcomm : st.arena.committed < SIZE_MOD)
    (hhead : st.arena.free_list (get_block_class old_size) < SIZE_MOD)
    (halloc : arena_internal_alloc fuel new_size st = some (0, st1)) :
    ∃ st3, arena_realloc fuel new_size old_size ptr st = some (0, st3) ∧
      st3 = arena_free old_size ptr st ∧
      st3.arena.committed = wsub st.arena.committed old_size ∧
      (old_size ≤ st.arena.committed →
        st3.arena.committed = st.arena.committed - old_size) ∧
      st3.arena.free_list (get_block_class old_size) = ptr ∧
      Block_next st3.mem ptr = st.arena.free_list (get_block_class old_size) ∧
      (∀ c, c ≠ get_block_class old_size → st3.arena.free_list c = st.arena.free_list c) ∧
      st3.arena.offset = st.arena.offset := by
  have hst1 := arena_internal_alloc_null fuel new_size st st1 hpow hbase hfit halloc
  subst hst1
  obtain ⟨h1, h2, h3, h4, _, _, h7, _⟩ :=
    arena_recycle_alloc_large st1 ptr old_size (get_block_class old_size) hsz
  refine ⟨arena_free old_size ptr st1, ?_, rfl, h3, ?_, h1, h7 hhead, h2, h4⟩
  · unfold arena_realloc
    rw [if_neg (by omega)]
    unfold arena_lock
    rw [halloc]
    rfl
  · intro hle
    unfold arena_free arena_lock arena_unlock
    rw [h3]
    exact wsub_of_le _ _ hcomm hle

/-- Growing the only region of the full 32-byte arena to 64 bytes fails: the
call returns null, `committed` drops from 32 to 0 and the region at 4096 heads
the Small free list. -/
theorem realloc_failure_releases_example :
    arena_internal_alloc 1 64 full_arena = some (0, full_arena) ∧
    full_arena.view = (32, 32, [0, 0, 0, 0]) ∧
    ∃ st3, arena_realloc 1 64 32 4096 full_arena = some (0, st3) ∧
      st3.arena.committed = 0 ∧ st3.arena.free_list BlockClass.Small = 4096 ∧
      st3.arena.offset = 32 := by
  have halloc : arena_internal_alloc 1 64 full_arena = some (0, full_arena) := by rfl
  obtain ⟨st3, h1, _, _, h4, h5, _, _, h8⟩ :=
    realloc_failure_releases 1 64 32 4096 full_arena full_arena (by decide) (by decide)
      (by decide) (by decide) (by decide) (by decide) (by decide) halloc
  exact ⟨halloc, by decide, st3, h1, h4 (by decide), h5, h8⟩

/-- C9 (the code departs from it): under Best-Fit the 40-byte region at 4096 is
live and holds the words 7, 4144, 1, 2, 3, but the block is still the head of
the Small free list.  `arena_realloc(50, 40, 4096)` succeeds and returns 4144;
its search unlinked the block at 4144 by writing a null `next` into the live
region before the copy, so the first 40 bytes of the new region are the words
7, 0, 1, 2, 3 and not the bytes the old region had at the time of the call. -/
theorem C9_realloc_copy_differs_from_old_region :
    (run 2 grow_live_trace (fresh 4096 1024 16 AllocationStrategy.BestFit)).map (fun r => r.1)
      = some [some 4096, some 4144, none, none, some 4096, none, none, none, none, none] ∧
    words5 grow_live_arena.mem 4096 = [7, 4144, 1, 2, 3] ∧
    (arena_realloc 2 50 40 4096 grow_live_arena).map (fun r => (r.1, words5 r.2.mem r.1))
      = some (4144, [7, 0, 1, 2, 3]) := by
  decide

/-- On a block that is too small and whose `next` field points to the block
itself the Best-Fit loop exhausts every fuel. -/
theorem find_best_loop_self_loop (m : Mem) (size c : Nat) (hc : c ≠ 0)
    (hs : Block_size m c < size) (hn : Block_next m c = c) :
    ∀ fuel prev best, find_best_loop fuel m size prev c best = none := by
  intro fuel
  induction fuel with
  | zero => intro prev best; rfl
  | succ n ih =>
    intro prev best
    unfold find_best_loop
    rw [if_neg hc]
    have htake : decide (Block_size m c ≥ size) = false := by
      rw [decide_eq_false_iff_not]
      omega
    simp only [htake, Bool.false_and, Bool.false_eq_true, if_false, hn, hc]
    exact ih c best

/-- C10 (the code departs from it): under Best-Fit the 40-byte region at 4096 is
live and the Small free list is 4096 (48 bytes) → 4144 (32 bytes), the block at
4144 pointing to itself.  No block can hold 50 bytes, yet the growing
`arena_realloc(50, 40, 4096)` does not return null: its search never leaves the
loop, whatever the fuel, so the call does not return and the old region is not
released. -/
theorem C10_realloc_never_returns :
    (run 3 (double_handout_trace.take 7)
        (fresh 4096 1024 16 AllocationStrategy.BestFit)).map (fun r => r.1)
      = some [some 4096, some 4144, some 4176, none, none, none, some 4096] ∧
    cyclic_arena.view = (144, 40, [4096, 0, 0, 0]) ∧
    [Block_size cyclic_arena.mem 4096, Block_next cyclic_arena.mem 4096,
      Block_size cyclic_arena.mem 4144, Block_next cyclic_arena.mem 4144]
      = [48, 4144, 32, 4144] ∧
    sizeof_Block ≤ 40 ∧
    ∀ fuel, arena_realloc fuel 50 40 4096 cyclic_arena = none := by
  refine ⟨by decide, by decide, by decide, by decide, ?_⟩
  intro fuel
  have hstrat : cyclic_arena.arena.strategy = AllocationStrategy.BestFit := by decide
  have hhead : cyclic_arena.arena.free_list (get_block_class 50) = 4096 := by decide
  have hs0 : Block_size cyclic_arena.mem 4096 = 48 := by decide
  have hn0 : Block_next cyclic_arena.mem 4096 = 4144 := by decide
  have hs1 : Block_size cyclic_arena.mem 4144 < 50 := by decide
  have hn1 : Block_next cyclic_arena.mem 4144 = 4144 := by decide
  have hloop : find_best_loop fuel cyclic_arena.mem 50 0 4096 0 = none := by
    cases fuel with
    | zero => rfl
    | succ n =>
      unfold find_best_loop
      rw [if_neg (by decide)]
      have htake : decide (Block_size cyclic_arena.mem 4096 ≥ 50) = false := by
        rw [hs0]
        rfl
      simp only [htake, Bool.false_and, Bool.false_eq_true, if_false, hn0]
      rw [if_neg (by decide)]
      exact find_best_loop_self_loop cyclic_arena.mem 50 4144 (by decide) hs1 hn1 n 4096 0
  have hsearch : arena_free_list_find_best_block fuel cyclic_arena (get_block_class 50) 50
      = none := by
    unfold arena_free_list_find_best_block
    rw [hhead, if_neg (by decide), hloop]
  have halloc : arena_internal_alloc fuel 50 cyclic_arena = none := by
    unfold arena_internal_alloc
    rw [if_neg (by decide)]
    simp only [hstrat, hsearch]
  unfold arena_realloc arena_lock
  rw [if_neg (by decide), halloc]

/-! ## C11: `arena_calloc` -/

theorem find_first_loop_counters (fuel : Nat) (st : State) (cls : BlockClass)
    (size prev curr r : Nat) (st1 : State)
    (h : find_first_loop fuel st cls size prev curr = some (r, st1)) :
    st1.arena.offset = st.arena.offset ∧ st1.arena.committed = st.arena.committed := by
  induction fuel generalizing prev curr with
  | zero => simp [find_first_loop] at h
  | succ n ih =>
    unfold find_first_loop at h
    split at h
    · simp only [Option.some.injEq, Prod.mk.injEq] at h
      rw [← h.2]
      exact ⟨rfl, rfl⟩
    · split at h
      · split at h <;>
          (simp only [Option.some.injEq, Prod.mk.injEq] at h; rw [← h.2]; exact ⟨rfl, rfl⟩)
      · exact ih _ _ h

theorem find_first_block_counters (fuel : Nat) (st : State) (cls : BlockClass)
    (size r : Nat) (st1 : State)
    (h : arena_free_list_find_first_block fuel st cls size = some (r, st1)) :
    st1.arena.offset = st.arena.offset ∧ st1.arena.committed = st.arena.committed := by
  unfold arena_free_list_find_first_block at h
  split at h
  · simp only [Option.some.injEq, Prod.mk.injEq] at h
    rw [← h.2]
    exact ⟨rfl, rfl⟩
  · exact find_first_loop_counters _ _ _ _ _ _ _ _ h

theorem find_best_block_counters (fuel : Nat) (st : State) (cls : BlockClass)
    (size r : Nat) (st1 : State)
    (h : arena_free_list_find_best_block fuel st cls size = some (r, st1)) :
    st1.arena.offset = st.arena.offset ∧ st1.arena.committed = st.arena.committed := by
  unfold arena_free_list_find_best_block at h
  split at h
  · simp only [Option.some.injEq, Prod.mk.injEq] at h
    rw [← h.2]
    exact ⟨rfl, rfl⟩
  · split at h
    · simp at h
    · split at h
      · split at h <;>
          (simp only [Option.some.injEq, Prod.mk.injEq] at h; rw [← h.2]; exact ⟨rfl, rfl⟩)
      · simp only [Option.some.injEq, Prod.mk.injEq] at h
        rw [← h.2]
        exact ⟨rfl, rfl⟩

/-- A successful allocation of `size` bytes adds `size` to `committed`. -/
theorem arena_internal_alloc_committed (fuel size : Nat) (st : State) (r : Nat) (st1 : State)
    (h : arena_internal_alloc fuel size st = some (r, st1)) (hr : r ≠ 0) :
    st1.arena.committed = (st.arena.committed + size) % SIZE_MOD := by
  by_cases hz : size = 0
  · unfold arena_internal_alloc at h
    rw [if_pos hz] at h
    simp only [Option.some.injEq, Prod.mk.injEq] at h
    exact absurd h.1.symm hr
  · obtain ⟨ptr, st2, hsearch, hres⟩ := arena_internal_alloc_pos fuel size st hz r st1 h
    have h2 : st2.arena.committed = st.arena.committed := by
      rcases hsearch with ⟨_, hf⟩ | ⟨_, hf⟩
      · exact (find_first_block_counters _ _ _ _ _ _ hf).2
      · exact (find_best_block_counters _ _ _ _ _ _ hf).2
    rcases hres with ⟨_, _, hst⟩ | ⟨_, hb⟩
    · rw [hst, ← h2]
    · unfold arena_alloc_aligned at hb
      simp only at hb
      split at hb
      · simp only [Prod.mk.injEq] at hb
        exact absurd hb.1.symm hr
      · simp only [Prod.mk.injEq] at hb
        rw [← hb.2, ← h2]

/-- C11: when `count * size` fits in `size_t`, every call of `arena_calloc` that
returns a non-null pointer leaves the `count * size` bytes at that pointer equal
to zero, whatever the region held before (a stale Block header, earlier data),
and leaves `committed` increased by `count * size` as a `size_t` (by exactly
`count * size` when the sum does not wrap); and when `count * size` is zero the
call returns null and leaves the state unchanged. -/
theorem C11_calloc_zeroes_region (fuel count size : Nat) (st : State)
    (hfits : count * size < SIZE_MOD) :
    (∀ ptr st1, arena_calloc fuel count size st = some (ptr, st1) → ptr ≠ 0 →
      (∀ i, i < count * size → st1.mem (ptr + i) = 0) ∧
      st1.arena.committed = (st.arena.committed + count * size) % SIZE_MOD ∧
      (st.arena.committed + count * size < SIZE_MOD →
        st1.arena.committed = st.arena.committed + count * size)) ∧
    (count * size = 0 → arena_calloc fuel count size st = some (0, st)) := by
  have htot : (count * size) % SIZE_MOD = count * size := Nat.mod_eq_of_lt hfits
  constructor
  · intro ptr st1 h hp
    unfold arena_calloc arena_lock arena_unlock at h
    rw [htot] at h
    simp only at h
    cases ha : arena_internal_alloc fuel (count * size) st with
    | none => rw [ha] at h; simp at h
    | some q =>
      obtain ⟨p, st2⟩ := q
      rw [ha] at h
      simp only [Option.some.injEq, Prod.mk.injEq] at h
      obtain ⟨hp1, hst⟩ := h
      subst hp1
      rw [if_pos hp] at hst
      have hc := arena_internal_alloc_committed fuel (count * size) st p st2 ha hp
      subst hst
      refine ⟨?_, hc, ?_⟩
      · intro i hi
        show memset st2.mem p 0 (count * size) (p + i) = 0
        unfold memset
        rw [if_pos (by omega)]
      · intro hsum
        show st2.arena.committed = _
        rw [hc, Nat.mod_eq_of_lt hsum]
  · intro hzero
    unfold arena_calloc arena_lock arena_unlock arena_internal_alloc
    rw [htot, hzero]
    simp

/-- A request `arena_calloc(3, 8)` served by the released block at 4096, which
still holds its header (size 32) and sixteen bytes 99 of earlier data: the call
returns 4096, the 24 bytes are zero and `committed` rises from 0 to 24. -/
theorem C11_witness :
    3 * 8 < SIZE_MOD ∧
    [Block_size stale_block_arena.mem 4096, stale_block_arena.mem 4112,
      stale_block_arena.mem 4119, stale_block_arena.arena.committed] = [32, 99, 99, 0] ∧
    ∃ st1, arena_calloc 1 3 8 stale_block_arena = some (4096, st1) ∧
      (∀ i, i < 3 * 8 → st1.mem (4096 + i) = 0) ∧ st1.arena.committed = 24 := by
  have hrun : arena_calloc 1 3 8 stale_block_arena
      = some (4096, { stale_block_arena_reused with
          mem := memset stale_block_arena_reused.mem 4096 0 24 }) := by
    rfl
  obtain ⟨h1, _, h3⟩ :=
    (C11_calloc_zeroes_region 1 3 8 stale_block_arena (by decide)).1 4096 _ hrun (by decide)
  exact ⟨by decide, by decide, _, hrun, h1, h3 (by decide)⟩

/-! ## C12, C13: releases smaller than the Block header -/

/-- C12 (the code departs from it): in an arena whose only live region has 8
bytes, `committed` is 8 before `arena_free(8, ptr)` and still 8 after it, not
8 - 8 = 0. -/
theorem C12_small_release_keeps_committed :
    small_live_arena.arena.committed = 8 ∧ 0 < 8 ∧ 8 < sizeof_Block ∧
    (arena_free 8 4096 small_live_arena).arena.committed = 8 := by
  decide

/-- Every block the First-Fit loop can return is a block of the chain. -/
theorem find_first_loop_mem (st : State) (cls : BlockClass) (size : Nat) (bs : List Nat) :
    ∀ (fuel prev curr r : Nat) (st1 : State), FreeList st.mem curr bs →
      find_first_loop fuel st cls size prev curr = some (r, st1) → r ≠ 0 → r ∈ bs := by
  induction bs with
  | nil =>
    intro fuel prev curr r st1 hl h hr
    have hc : curr = 0 := hl
    cases fuel with
    | zero => simp [find_first_loop] at h
    | succ n =>
      unfold find_first_loop at h
      rw [if_pos hc] at h
      simp only [Option.some.injEq, Prod.mk.injEq] at h
      exact absurd h.1.symm hr
  | cons c rest ih =>
    intro fuel prev curr r st1 hl h hr
    obtain ⟨hc, hc0, hrest⟩ := hl
    subst hc
    cases fuel with
    | zero => simp [find_first_loop] at h
    | succ n =>
      unfold find_first_loop at h
      rw [if_neg hc0] at h
      split at h
      · split at h <;>
          (simp only [Option.some.injEq, Prod.mk.injEq] at h; rw [← h.1]; simp)
      · exact List.mem_cons_of_mem _ (ih n curr _ r st1 hrest h hr)

/-- Every candidate the Best-Fit loop can end with is the candidate it started
with or a block of the chain. -/
theorem find_best_loop_mem (m : Mem) (size : Nat) (bs : List Nat) :
    ∀ (fuel prev curr best p r : Nat), FreeList m curr bs →
      find_best_loop fuel m size prev curr best = some (p, r) → r = best ∨ r ∈ bs := by
  induction bs with
  | nil =>
    intro fuel prev curr best p r hl h
    have hc : curr = 0 := hl
    cases fuel with
    | zero => simp [find_best_loop] at h
    | succ n =>
      unfold find_best_loop at h
      rw [if_pos hc] at h
      simp only [Option.some.injEq, Prod.mk.injEq] at h
      exact Or.inl h.2.symm
  | cons c rest ih =>
    intro fuel prev curr best p r hl h
    obtain ⟨hc, hc0, hrest⟩ := hl
    subst hc
    cases fuel with
    | zero => simp [find_best_loop] at h
    | succ n =>
      unfold find_best_loop at h
      rw [if_neg hc0] at h
      obtain ⟨take, htake⟩ : ∃ t : Bool, t = (decide (Block_size m curr ≥ size) &&
          (decide (best = 0) || (decide (best ≠ 0) &&
            decide (Block_size m curr < Block_size m best)))) := ⟨_, rfl⟩
      obtain ⟨best1, hbest1⟩ : ∃ b : Nat, b = if take = true then curr else best := ⟨_, rfl⟩
      have hb1 : best1 = best ∨ best1 ∈ curr :: rest := by
        rw [hbest1]
        cases take
        · exact Or.inl rfl
        · exact Or.inr (by simp)
      replace h : (if (take && decide (Block_size m best1 = size)) = true
          then some (prev, best1)
          else if Block_next m curr = 0 then some (prev, best1)
            else find_best_loop n m size curr (Block_next m curr) best1) = some (p, r) := by
        rw [hbest1, htake]
        exact h
      clear hbest1 htake
      split at h
      · simp only [Option.some.injEq, Prod.mk.injEq] at h
        rw [← h.2]
        exact hb1
      · split at h
        · simp only [Option.some.injEq, Prod.mk.injEq] at h
          rw [← h.2]
          exact hb1
        · rcases ih n curr _ _ p r hrest h with hr | hr
          · rw [hr]
            exact hb1
          · exact Or.inr (List.mem_cons_of_mem _ hr)

/-- The release alone: a release of fewer than `sizeof(Block)` bytes returns the
state it was given: the bump offset, the four free lists, `committed` and memory are
unchanged.  Hence every later sequence of calls behaves as if the release had
not been made; and when the released region is not a block of the free list of
a class, neither search of that list returns it. -/
theorem small_release_is_noop (size ptr : Nat) (st : State) (h : size < sizeof_Block) :
    arena_free size ptr st = st ∧
    (arena_free size ptr st).arena.offset = st.arena.offset ∧
    (∀ c, (arena_free size ptr st).arena.free_list c = st.arena.free_list c) ∧
    (∀ fuel cs, run fuel (Call.free size ptr :: cs) st
      = (run fuel cs st).map (fun r => (none :: r.1, r.2))) ∧
    (∀ fuel cls n bs r st1, FreeList st.mem (st.arena.free_list cls) bs → ptr ∉ bs →
      (arena_free_list_find_first_block fuel (arena_free size ptr st) cls n = some (r, st1) ∨
        arena_free_list_find_best_block fuel (arena_free size ptr st) cls n = some (r, st1)) →
      r ≠ 0 → r ≠ ptr) := by
  have hnoop : arena_free size ptr st = st := by
    show (arena_recycle_alloc st ptr size (get_block_class size)).2 = st
    rw [arena_recycle_alloc_small st ptr size _ h]
  refine ⟨hnoop, by rw [hnoop], fun c => by rw [hnoop], ?_, ?_⟩
  · intro fuel cs
    have hstep : step fuel (Call.free size ptr) st = some (none, st) := by
      show some ((none : Option Nat), arena_free size ptr st) = _
      rw [hnoop]
    conv_lhs => rw [run]
    rw [hstep]
    dsimp only
    cases run fuel cs st with
    | none => rfl
    | some q => rfl
  · intro fuel cls n bs r st1 hl hnot hsearch hr0 hrp
    rw [hnoop] at hsearch
    have hmem : r ∈ bs := by
      rcases hsearch with hf | hb
      · unfold arena_free_list_find_first_block at hf
        split at hf
        · simp only [Option.some.injEq, Prod.mk.injEq] at hf
          exact absurd hf.1.symm hr0
        · exact find_first_loop_mem st cls n bs fuel 0 _ r st1 hl hf hr0
      · unfold arena_free_list_find_best_block at hb
        split at hb
        · simp only [Option.some.injEq, Prod.mk.injEq] at hb
          exact absurd hb.1.symm hr0
        · split at hb
          · simp at hb
          · rename_i prev best hloop
            have hbest : best = 0 ∨ best ∈ bs :=
              find_best_loop_mem st.mem n bs fuel 0 _ 0 prev best hl hloop
            by_cases hb0 : best = 0
            · subst hb0
              simp only [ne_eq, not_true_eq_false, if_false, Option.some.injEq,
                Prod.mk.injEq] at hb
              exact absurd hb.1.symm hr0
            · rw [if_pos hb0] at hb
              have hrb : best = r := by
                split at hb <;>
                  (simp only [Option.some.injEq, Prod.mk.injEq] at hb; exact hb.1)
              rw [← hrb]
              rcases hbest with h0 | hin
              · exact absurd h0 hb0
              · exact hin
    rw [hrp] at hmem
    exact hnot hmem

/-- Releasing the 8-byte region at 4096 of `small_live_arena`: the state is the
one before the release. -/
theorem small_release_is_noop_example :
    8 < sizeof_Block ∧ arena_free 8 4096 small_live_arena = small_live_arena ∧
    (arena_free 8 4096 small_live_arena).view = small_live_arena.view :=
  ⟨by decide, (small_release_is_noop 8 4096 small_live_arena (by decide)).1, by decide⟩

/-- C13 (the code departs from it): the 8-byte region at 4096 is released with
its size and comes back without `arena_free_all`.  Under Best-Fit the block at
4096 was left on the Small free list when it was handed out, and the next
request of 8 bytes returns 4096 by reuse, the bump offset staying at 112.
Under First-Fit a request of 2^64 - 16 bytes passes the wrapped bound check and
sets the bump offset back to 0, so the next request of 8 bytes returns 4096
from the bump path. -/
theorem C13_small_release_region_comes_back :
    8 < sizeof_Block ∧
    (run 2 (small_reuse_trace.take 6) (fresh 4096 1024 16 AllocationStrategy.BestFit)).map
        (fun r => (r.1, r.2.arena.offset, r.2.arena.free_list BlockClass.Small))
      = some ([some 4096, some 4144, none, none, some 4096, none], 112, 4096) ∧
    (run 2 small_reuse_trace (fresh 4096 1024 16 AllocationStrategy.BestFit)).map
        (fun r => (r.1, r.2.arena.offset))
      = some ([some 4096, some 4144, none, none, some 4096, none, some 4096], 112) ∧
    (run 1 small_wrap_trace (fresh 4096 1024 16 AllocationStrategy.FirstFit)).map
        (fun r => r.1)
      = some [some 4096, none, some 4112, some 4096] := by
  decide

/-! ## C14: `arena_free_all` -/

/-- C14: from every state `arena_free_all` produces a state whose `offset` and
`committed` are zero and whose four free-list heads are null, while `base`,
`size`, `align`, `strategy`, the mutex pointer and every byte of memory are the
ones of the state before. -/
theorem C14_free_all_resets (st : State) :
    (arena_free_all st).arena.offset = 0 ∧
    (arena_free_all st).arena.committed = 0 ∧
    (∀ c, (arena_free_all st).arena.free_list c = 0) ∧
    (arena_free_all st).arena.base = st.arena.base ∧
    (arena_free_all st).arena.size = st.arena.size ∧
    (arena_free_all st).arena.align = st.arena.align ∧
    (arena_free_all st).arena.strategy = st.arena.strategy ∧
    (arena_free_all st).arena.mutex = st.arena.mutex ∧
    (arena_free_all st).mem = st.mem :=
  ⟨rfl, rfl, fun _ => rfl, rfl, rfl, rfl, rfl, rfl, rfl⟩

/-! ## C15: allocation after a full reset -/

/-- C15 (the code departs from it): a 64-byte arena at 4096 with 16-byte
alignment.  After `arena_free_all` the request for the whole capacity returns
the base; the following request, for 2^64 - 64 bytes, is positive and yet does
not return null: `offset + size` wraps to 0, the bound check passes, the call
returns 4160 (the end of the buffer) and the bump offset falls from 64 to 0. -/
theorem C15_huge_request_after_full_allocation :
    0 < reset_arena.arena.size ∧ is_power_of_two reset_arena.arena.align = true ∧
    reset_arena.arena.base % reset_arena.arena.align = 0 ∧
    (run 1 (reset_trace.take 2) reset_arena).map (fun r => (r.1, r.2.view))
      = some ([none, some 4096], (64, 64, [0, 0, 0, 0])) ∧
    0 < 2 ^ 64 - 64 ∧ 2 ^ 64 - 64 < SIZE_MOD ∧
    (run 1 reset_trace reset_arena).map (fun r => (r.1, r.2.view))
      = some ([none, some 4096, some 4160], (0, 0, [0, 0, 0, 0])) := by
  decide

/-! ## C16: an arena of exactly `n` blocks -/

theorem run_cons (fuel : Nat) (c : Call) (cs : List Call) (st : State) :
    run fuel (c :: cs) st =
      match step fuel c st with
      | none => none
      | some (r, st1) =>
        match run fuel cs st1 with
        | none => none
        | some (rs, st2) => some (r :: rs, st2) := by
  rw [run]

/-- C17 (the code departs from it): every entry point holds the lock for its
whole body, so an interleaving of threads is a sequence of calls.  On an arena
with the lock enabled: after one allocate/free pair of 8 bytes by one thread
`arena_allocated` reports 8, not 0.  After four allocate/free pairs of 48, 64,
40 and 40 bytes by one thread under Best-Fit, and likewise after an
interleaving of two threads with two pairs each, the block at 4096 is the head
of the Small free list and its `next` field points to the block itself: the
list is a cycle. -/
theorem C17_single_thread_pairs :
    (locked_arena AllocationStrategy.BestFit).arena.mutex ≠ 0 ∧
    (run 2 one_small_pair (locked_arena AllocationStrategy.BestFit)).map
        (fun r => (r.1, arena_allocated r.2))
      = some ([some 4096, none], 8) ∧
    (run 2 four_pairs (locked_arena AllocationStrategy.BestFit)).map
        (fun r => (r.1, arena_allocated r.2, r.2.arena.free_list BlockClass.Small,
          Block_next r.2.mem 4096))
      = some ([some 4096, none, some 4144, none, some 4096, none, some 4096, none],
          0, 4096, 4096) ∧
    two_thread_interleaving
      = [Call.alloc 48, Call.alloc 64, Call.free 64 4144, Call.free 48 4096,
          Call.alloc 40, Call.free 40 4096, Call.alloc 100, Call.free 100 4208] ∧
    (run 2 two_thread_interleaving (locked_arena AllocationStrategy.BestFit)).map
        (fun r => (r.1, arena_allocated r.2, r.2.arena.free_list BlockClass.Small,
          Block_next r.2.mem 4096))
      = some ([some 4096, some 4144, none, none, some 4096, none, some 4208, none],
          0, 4096, 4096) := by
  refine ⟨by decide, by decide, by decide, rfl, by decide⟩

/-! ## C18: the bound check of the bump path -/

/-- C18 (the code departs from it): in a 100-byte arena at 4096 with 16-byte
alignment the bump offset is 40 and the free lists are empty, so the aligned
offset is 48.  For a request of 2^64 - 48 bytes the exact sum 48 + (2^64 - 48)
exceeds the capacity 100, but the `size_t` sum is 0: the call returns 4144
instead of null and the bump offset moves back from 40 to 0. -/
theorem C18_bound_check_wraps :
    wrap_arena.view = (40, 40, [0, 0, 0, 0]) ∧
    align_forward (wrap_arena.arena.base + wrap_arena.arena.offset) wrap_arena.arena.align
      - wrap_arena.arena.base = 48 ∧
    2 ^ 64 - 48 < SIZE_MOD ∧
    wrap_arena.arena.size < 48 + (2 ^ 64 - 48) ∧
    (arena_alloc 1 (2 ^ 64 - 48) wrap_arena).map (fun r => (r.1, r.2.arena.offset))
      = some (4144, 0) := by
  decide

/-! ## C19: the product computed by `arena_calloc` -/

/-- C19, as amended: `arena_calloc(count, size)` behaves as
`arena_calloc((count * size) mod 2^64, 1)`; and when `count * size` fits in
`size_t` it returns what `arena_alloc` returns for a request of exactly
`count * size` bytes, the state being the one `arena_alloc` leaves with, on
success, the `count * size` bytes at the returned pointer set to zero. -/
theorem C19_calloc_requests_wrapped_product (fuel count size : Nat) (st : State) :
    arena_calloc fuel count size st
      = arena_calloc fuel ((count * size) % SIZE_MOD) 1 st ∧
    (count * size < SIZE_MOD →
      arena_calloc fuel count size st
        = (arena_alloc fuel (count * size) st).map (fun r =>
            (r.1, if r.1 ≠ 0 then { r.2 with mem := memset r.2.mem r.1 0 (count * size) }
              else r.2))) := by
  constructor
  · unfold arena_calloc
    rw [Nat.mul_one, Nat.mod_mod]
  · intro hfits
    unfold arena_calloc arena_alloc arena_lock arena_unlock
    rw [Nat.mod_eq_of_lt hfits]
    dsimp only
    cases arena_internal_alloc fuel (count * size) st with
    | none => rfl
    | some q => rfl

/-- The request `arena_calloc(5, 8)` on a fresh arena: the product fits and the
call returns the region `arena_alloc(40)` returns. -/
theorem C19_witness :
    5 * 8 < SIZE_MOD ∧
    (arena_calloc 1 5 8 (fresh 4096 1024 16 AllocationStrategy.FirstFit)).map (fun r => r.1)
      = (arena_alloc 1 40 (fresh 4096 1024 16 AllocationStrategy.FirstFit)).map (fun r => r.1) ∧
    arena_calloc 1 5 8 (fresh 4096 1024 16 AllocationStrategy.FirstFit)
      = (arena_alloc 1 (5 * 8) (fresh 4096 1024 16 AllocationStrategy.FirstFit)).map (fun r =>
          (r.1, if r.1 ≠ 0 then { r.2 with mem := memset r.2.mem r.1 0 (5 * 8) } else r.2)) :=
  ⟨by decide, by decide,
    (C19_calloc_requests_wrapped_product 1 5 8
      (fresh 4096 1024 16 AllocationStrategy.FirstFit)).2 (by decide)⟩

/-- C19 fails as stated: the exact product of `arena_calloc(2^63 + 4, 2)` is
2^64 + 8, which does not fit in `size_t`; the call does not return null, it
returns 4096 after an allocation of 8 bytes (`offset` and `committed` are 8). -/
theorem C19_wrapped_product_is_served :
    SIZE_MOD ≤ (2 ^ 63 + 4) * 2 ∧ (2 ^ 63 + 4) * 2 = 2 ^ 64 + 8 ∧
    (arena_calloc 1 (2 ^ 63 + 4) 2 (fresh 4096 1024 16 AllocationStrategy.FirstFit)).map
      (fun r => (r.1, r.2.view)) = some (4096, (8, 8, [0, 0, 0, 0])) := by
  decide

/-! ## C20: the release path for recyclable sizes -/

theorem load64_store64_same_mod (m : Mem) (p v : Nat) :
    load64 (store64 m p v) p = v % SIZE_MOD := by
  unfold SIZE_MOD
  unfold load64 store64
  have e0 : p - p = 0 := by omega
  have e1 : p + 1 - p = 1 := by omega
  have e2 : p + 2 - p = 2 := by omega
  have e3 : p + 3 - p = 3 := by omega
  have e4 : p + 4 - p = 4 := by omega
  have e5 : p + 5 - p = 5 := by omega
  have e6 : p + 6 - p = 6 := by omega
  have e7 : p + 7 - p = 7 := by omega
  simp only [e0, e1, e2, e3, e4, e5, e6, e7, le_refl, Nat.le_add_right, Nat.lt_add_of_pos_right,
    Nat.add_lt_add_iff_left, true_and, if_true, Nat.reducePow, Nat.reduceLT, Nat.lt_add_one,
    and_self, Nat.zero_lt_succ, Nat.div_one, Nat.mod_mod]
  omega

/-- The padding computed by a release is smaller than the alignment. -/
theorem pad_lt_align (x a : Nat) (hpow : is_power_of_two a = true) :
    wsub (align_forward x a) x < a := by
  have ha := is_power_of_two_pos a hpow
  rw [align_forward_eq x a hpow]
  by_cases hm : x % a = 0
  · rw [if_pos hm]
    unfold wsub
    unfold SIZE_MOD at *
    omega
  · rw [if_neg hm]
    have hlt : x % a < a := Nat.mod_lt _ ha
    generalize x % a = r at hm hlt
    unfold wsub
    unfold SIZE_MOD at *
    omega

/-- In `size_t` arithmetic, size plus padding is the rounded end minus `ptr`. -/
theorem stored_size_eq (ptr size cons : Nat) :
    (size + wsub cons ((ptr + size) % SIZE_MOD)) % SIZE_MOD = wsub cons ptr := by
  unfold wsub
  unfold SIZE_MOD
  omega

/-- The `next` field written by a release is the former head of the list. -/
theorem arena_recycle_alloc_next (st : State) (ptr size : Nat) (cls : BlockClass)
    (hsz : sizeof_Block ≤ size) :
    Block_next (arena_recycle_alloc st ptr size cls).2.mem ptr
      = st.arena.free_list cls % SIZE_MOD := by
  unfold arena_recycle_alloc
  rw [if_neg (by omega)]
  show load64 (store64 (store64 st.mem ptr _) (ptr + Block_next_off) _)
    (ptr + Block_next_off) = _
  exact load64_store64_same_mod _ _ _

/-- C20: in an arena with a power-of-two alignment, after
`arena_free(size, ptr)` with `size` at least `sizeof(Block)`: the head of the
free list of `get_block_class size` is `ptr`; the stored size of the block at
`ptr` is `align_forward(ptr + size, align) - ptr` in `uintptr_t` arithmetic, is
less than `size + align`, and without wrap-around is that difference as a
natural number and at least `size`; the `next` field of the block is the former
head of the list; `committed` is decreased by `size` as a `size_t`, that is by
exactly `size` when `size ≤ committed`; the bump offset and the free lists of
the other three classes are unchanged. -/
theorem C20_release_recyclable (size ptr : Nat) (st : State)
    (hpow : is_power_of_two st.arena.align = true) (hsz : sizeof_Block ≤ size) :
    (arena_free size ptr st).arena.free_list (get_block_class size) = ptr ∧
    Block_size (arena_free size ptr st).mem ptr
      = wsub (align_forward ((ptr + size) % SIZE_MOD) st.arena.align) ptr ∧
    Block_size (arena_free size ptr st).mem ptr < size + st.arena.align ∧
    (ptr + size + st.arena.align ≤ SIZE_MOD →
      Block_size (arena_free size ptr st).mem ptr
        = align_forward (ptr + size) st.arena.align - ptr ∧
      size ≤ Block_size (arena_free size ptr st).mem ptr) ∧
    Block_next (arena_free size ptr st).mem ptr
      = st.arena.free_list (get_block_class size) % SIZE_MOD ∧
    (arena_free size ptr st).arena.committed = wsub st.arena.committed size ∧
    (size ≤ st.arena.committed → st.arena.committed < SIZE_MOD →
      (arena_free size ptr st).arena.committed = st.arena.committed - size) ∧
    (arena_free size ptr st).arena.offset = st.arena.offset ∧
    (∀ c, c ≠ get_block_class size →
      (arena_free size ptr st).arena.free_list c = st.arena.free_list c) := by
  have hfree : arena_free size ptr st
      = (arena_recycle_alloc st ptr size (get_block_class size)).2 := rfl
  rw [hfree]
  obtain ⟨h1, h2, h3, h4, _, h6, _, _⟩ :=
    arena_recycle_alloc_large st ptr size (get_block_class size) hsz
  have hstored : Block_size (arena_recycle_alloc st ptr size (get_block_class size)).2.mem ptr
      = wsub (align_forward ((ptr + size) % SIZE_MOD) st.arena.align) ptr := by
    rw [h6]
    exact stored_size_eq ptr size _
  have hpad := pad_lt_align ((ptr + size) % SIZE_MOD) st.arena.align hpow
  refine ⟨h1, hstored, ?_, ?_, ?_, h3, ?_, h4, h2⟩
  · rw [h6]
    have := Nat.mod_le (size + wsub (align_forward ((ptr + size) % SIZE_MOD) st.arena.align)
      ((ptr + size) % SIZE_MOD)) SIZE_MOD
    omega
  · intro hfit
    have hb := padded_size_bounds ptr size st.arena.align hpow hfit
    rw [← h6] at hb
    refine ⟨?_, hb.1⟩
    rw [hstored]
    have ha := is_power_of_two_pos _ hpow
    have hx : (ptr + size) % SIZE_MOD = ptr + size := Nat.mod_eq_of_lt (by omega)
    rw [hx]
    obtain ⟨hlo, hhi, _⟩ := align_forward_bounds (ptr + size) st.arena.align hpow hfit
    exact wsub_of_le _ _ (by omega) (by omega)
  · exact arena_recycle_alloc_next st ptr size _ hsz
  · intro hle hlt
    rw [h3]
    exact wsub_of_le _ _ hlt hle

/-- Releasing the 69-byte region at 4096 of `grow_arena` (alignment 16): the
block at 4096 heads the Medium free list with stored size 80 and a null `next`,
and `committed` drops from 69 to 0. -/
theorem C20_witness :
    is_power_of_two grow_arena.arena.align = true ∧ sizeof_Block ≤ 69 ∧
    grow_arena.view = (69, 69, [0, 0, 0, 0]) ∧
    (arena_free 69 4096 grow_arena).view = (69, 0, [0, 4096, 0, 0]) ∧
    Block_size (arena_free 69 4096 grow_arena).mem 4096 = 80 ∧
    Block_size (arena_free 69 4096 grow_arena).mem 4096
      = wsub (align_forward ((4096 + 69) % SIZE_MOD) grow_arena.arena.align) 4096 :=
  ⟨by decide, by decide, by decide, by decide, by decide,
    (C20_release_recyclable 69 4096 grow_arena (by decide) (by decide)).2.1⟩

/-! ## C21: size classes -/

theorem find_first_loop_heads (fuel : Nat) (st : State) (cls : BlockClass)
    (size prev curr r : Nat) (st1 : State)
    (h : find_first_loop fuel st cls size prev curr = some (r, st1)) :
    ∀ c, c ≠ cls → st1.arena.free_list c = st.arena.free_list c := by
  induction fuel generalizing prev curr with
  | zero => simp [find_first_loop] at h
  | succ n ih =>
    unfold find_first_loop at h
    split at h
    · simp only [Option.some.injEq, Prod.mk.injEq] at h
      rw [← h.2]
      exact fun _ _ => rfl
    · split at h
      · split at h
        · simp only [Option.some.injEq, Prod.mk.injEq] at h
          rw [← h.2]
          exact fun _ _ => rfl
        · simp only [Option.some.injEq, Prod.mk.injEq] at h
          rw [← h.2]
          intro c hc
          exact Function.update_noteq hc _ _
      · exact ih _ _ h

theorem find_first_block_heads (fuel : Nat) (st : State) (cls : BlockClass)
    (size r : Nat) (st1 : State)
    (h : arena_free_list_find_first_block fuel st cls size = some (r, st1)) :
    ∀ c, c ≠ cls → st1.arena.free_list c = st.arena.free_list c := by
  unfold arena_free_list_find_first_block at h
  split at h
  · simp only [Option.some.injEq, Prod.mk.injEq] at h
    rw [← h.2]
    exact fun _ _ => rfl
  · exact find_first_loop_heads _ _ _ _ _ _ _ _ h

theorem find_best_block_heads (fuel : Nat) (st : State) (cls : BlockClass)
    (size r : Nat) (st1 : State)
    (h : arena_free_list_find_best_block fuel st cls size = some (r, st1)) :
    ∀ c, c ≠ cls → st1.arena.free_list c = st.arena.free_list c := by
  unfold arena_free_list_find_best_block at h
  split at h
  · simp only [Option.some.injEq, Prod.mk.injEq] at h
    rw [← h.2]
    exact fun _ _ => rfl
  · split at h
    · simp at h
    · split at h
      · split at h
        · simp only [Option.some.injEq, Prod.mk.injEq] at h
          rw [← h.2]
          exact fun _ _ => rfl
        · simp only [Option.some.injEq, Prod.mk.injEq] at h
          rw [← h.2]
          intro c hc
          exact Function.update_noteq hc _ _
      · simp only [Option.some.injEq, Prod.mk.injEq] at h
        rw [← h.2]
        exact fun _ _ => rfl

/-- The First-Fit loop writes at most the `next` field of `prev` or of a block
of the chain. -/
theorem find_first_loop_frame (st : State) (cls : BlockClass) (size : Nat) (bs : List Nat) :
    ∀ (fuel prev curr r : Nat) (st1 : State), FreeList st.mem curr bs →
      find_first_loop fuel st cls size prev curr = some (r, st1) →
      ∀ a, (prev = 0 ∨ a < prev + 8 ∨ prev + 16 ≤ a) →
        (∀ b ∈ bs, a < b + 8 ∨ b + 16 ≤ a) → st1.mem a = st.mem a := by
  induction bs with
  | nil =>
    intro fuel prev curr r st1 hl h a _ _
    have hc : curr = 0 := hl
    cases fuel with
    | zero => simp [find_first_loop] at h
    | succ n =>
      unfold find_first_loop at h
      rw [if_pos hc] at h
      simp only [Option.some.injEq, Prod.mk.injEq] at h
      rw [← h.2]
  | cons c rest ih =>
    intro fuel prev curr r st1 hl h a hprev hbs
    obtain ⟨hc, hc0, hrest⟩ := hl
    subst hc
    cases fuel with
    | zero => simp [find_first_loop] at h
    | succ n =>
      unfold find_first_loop at h
      rw [if_neg hc0] at h
      split at h
      · split at h
        · rename_i hp
          simp only [Option.some.injEq, Prod.mk.injEq] at h
          rw [← h.2]
          show store64 st.mem (prev + Block_next_off) _ a = st.mem a
          unfold Block_next_off
          refine store64_other _ _ _ _ ?_
          rcases hprev with h0 | h1
          · exact absurd h0 hp
          · omega
        · simp only [Option.some.injEq, Prod.mk.injEq] at h
          rw [← h.2]
          rfl
      · exact ih n curr _ r st1 hrest h a (Or.inr (hbs curr (by simp)))
          (fun b hb => hbs b (by simp [hb]))

/-- The `prev` the Best-Fit loop ends with is the one it started with or a block
of the chain. -/
theorem find_best_loop_prev_mem (m : Mem) (size : Nat) (bs : List Nat) :
    ∀ (fuel prev curr best p r : Nat), FreeList m curr bs →
      find_best_loop fuel m size prev curr best = some (p, r) → p = prev ∨ p ∈ bs := by
  induction bs with
  | nil =>
    intro fuel prev curr best p r hl h
    have hc : curr = 0 := hl
    cases fuel with
    | zero => simp [find_best_loop] at h
    | succ n =>
      unfold find_best_loop at h
      rw [if_pos hc] at h
      simp only [Option.some.injEq, Prod.mk.injEq] at h
      exact Or.inl h.1.symm
  | cons c rest ih =>
    intro fuel prev curr best p r hl h
    obtain ⟨hc, hc0, hrest⟩ := hl
    subst hc
    cases fuel with
    | zero => simp [find_best_loop] at h
    | succ n =>
      unfold find_best_loop at h
      rw [if_neg hc0] at h
      obtain ⟨take, htake⟩ : ∃ t : Bool, t = (decide (Block_size m curr ≥ size) &&
          (decide (best = 0) || (decide (best ≠ 0) &&
            decide (Block_size m curr < Block_size m best)))) := ⟨_, rfl⟩
      obtain ⟨best1, hbest1⟩ : ∃ b : Nat, b = if take = true then curr else best := ⟨_, rfl⟩
      replace h : (if (take && decide (Block_size m best1 = size)) = true
          then some (prev, best1)
          else if Block_next m curr = 0 then some (prev, best1)
            else find_best_loop n m size curr (Block_next m curr) best1) = some (p, r) := by
        rw [hbest1, htake]
        exact h
      clear hbest1 htake
      split at h
      · simp only [Option.some.injEq, Prod.mk.injEq] at h
        exact Or.inl h.1.symm
      · split at h
        · simp only [Option.some.injEq, Prod.mk.injEq] at h
          exact Or.inl h.1.symm
        · rcases ih n curr _ _ p r hrest h with hp | hp
          · exact Or.inr (by rw [hp]; simp)
          · exact Or.inr (List.mem_cons_of_mem _ hp)

/-- Either search writes at most the `next` field of a block of the list of its
class. -/
theorem search_frame (fuel : Nat) (st : State) (cls : BlockClass) (size r : Nat)
    (st1 : State) (bs : List Nat) (hl : FreeList st.mem (st.arena.free_list cls) bs)
    (h : arena_free_list_find_first_block fuel st cls size = some (r, st1) ∨
      arena_free_list_find_best_block fuel st cls size = some (r, st1)) :
    ∀ a, (∀ b ∈ bs, a < b + 8 ∨ b + 16 ≤ a) → st1.mem a = st.mem a := by
  intro a ha
  rcases h with hf | hb
  · unfold arena_free_list_find_first_block at hf
    split at hf
    · simp only [Option.some.injEq, Prod.mk.injEq] at hf
      rw [← hf.2]
    · exact find_first_loop_frame st cls size bs fuel 0 _ r st1 hl hf a (Or.inl rfl) ha
  · unfold arena_free_list_find_best_block at hb
    split at hb
    · simp only [Option.some.injEq, Prod.mk.injEq] at hb
      rw [← hb.2]
    · split at hb
      · simp at hb
      · rename_i prev best hloop
        have hprev := find_best_loop_prev_mem st.mem size bs fuel 0 _ 0 prev best hl hloop
        split at hb
        · split at hb
          · rename_i hp
            simp only [Option.some.injEq, Prod.mk.injEq] at hb
            rw [← hb.2]
            show store64 st.mem (prev + Block_next_off) _ a = st.mem a
            unfold Block_next_off
            refine store64_other _ _ _ _ ?_
            rcases hprev with h0 | hin
            · exact absurd h0 hp
            · have := ha prev hin
              omega
          · simp only [Option.some.injEq, Prod.mk.injEq] at hb
            rw [← hb.2]
            rfl
        · simp only [Option.some.injEq, Prod.mk.injEq] at hb
          rw [← hb.2]

/-- Every non-null block a search returns is a block of the list of its
class. -/
theorem search_mem (fuel : Nat) (st : State) (cls : BlockClass) (size r : Nat)
    (st1 : State) (bs : List Nat) (hl : FreeList st.mem (st.arena.free_list cls) bs)
    (h : arena_free_list_find_first_block fuel st cls size = some (r, st1) ∨
      arena_free_list_find_best_block fuel st cls size = some (r, st1))
    (hr0 : r ≠ 0) : r ∈ bs := by
  rcases h with hf | hb
  · unfold arena_free_list_find_first_block at hf
    split at hf
    · simp only [Option.some.injEq, Prod.mk.injEq] at hf
      exact absurd hf.1.symm hr0
    · exact find_first_loop_mem st cls size bs fuel 0 _ r st1 hl hf hr0
  · unfold arena_free_list_find_best_block at hb
    split at hb
    · simp only [Option.some.injEq, Prod.mk.injEq] at hb
      exact absurd hb.1.symm hr0
    · split at hb
      · simp at hb
      · rename_i prev best hloop
        have hbest : best = 0 ∨ best ∈ bs :=
          find_best_loop_mem st.mem size bs fuel 0 _ 0 prev best hl hloop
        by_cases hb0 : best = 0
        · subst hb0
          simp only [ne_eq, not_true_eq_false, if_false, Option.some.injEq,
            Prod.mk.injEq] at hb
          exact absurd hb.1.symm hr0
        · rw [if_pos hb0] at hb
          have hrb : best = r := by
            split at hb <;>
              (simp only [Option.some.injEq, Prod.mk.injEq] at hb; exact hb.1)
          rw [← hrb]
          rcases hbest with h0 | hin
          · exact absurd h0 hb0
          · exact hin

theorem arena_alloc_aligned_frame (st : State) (size : Nat) :
    (arena_alloc_aligned st size).2.arena.free_list = st.arena.free_list ∧
    (arena_alloc_aligned st size).2.mem = st.mem := by
  unfold arena_alloc_aligned
  dsimp only
  split
  · exact ⟨rfl, rfl⟩
  · exact ⟨rfl, rfl⟩

/-- The class of a size is Small up to 64, Medium up to 512, Large up to
4096 and Huge above.  For every call `arena_alloc(n)` that returns, with `bs`
the blocks of the free list of the class of `n`: the heads of the other three
free lists are unchanged; a non-null result is a block of `bs` or the result of
the bump path from the unchanged state, so a block that is only on another
list is never taken from that list; memory is unchanged outside the `next`
fields of the blocks of `bs`; and every other free list whose headers do not
overlap those of `bs` is the same chain with the same stored sizes. -/
theorem size_class_frame (fuel n : Nat) (st : State) (bs : List Nat) (r : Nat)
    (st1 : State) (hl : FreeList st.mem (st.arena.free_list (get_block_class n)) bs)
    (h : arena_alloc fuel n st = some (r, st1)) :
    (∀ k, (k ≤ 64 → get_block_class k = BlockClass.Small) ∧
      (64 < k → k ≤ 512 → get_block_class k = BlockClass.Medium) ∧
      (512 < k → k ≤ 4096 → get_block_class k = BlockClass.Large) ∧
      (4096 < k → get_block_class k = BlockClass.Huge)) ∧
    (∀ c, c ≠ get_block_class n → st1.arena.free_list c = st.arena.free_list c) ∧
    (r ≠ 0 → r ∈ bs ∨ arena_alloc_aligned st n = (r, st1)) ∧
    (∀ a, (∀ b ∈ bs, a < b + 8 ∨ b + 16 ≤ a) → st1.mem a = st.mem a) ∧
    (∀ c cs, c ≠ get_block_class n → FreeList st.mem (st.arena.free_list c) cs →
      (∀ x ∈ cs, ∀ b ∈ bs, HeaderDisjoint x b) →
      FreeList st1.mem (st1.arena.free_list c) cs ∧
      ∀ x ∈ cs, Block_size st1.mem x = Block_size st.mem x) := by
  have hclass : ∀ k, (k ≤ 64 → get_block_class k = BlockClass.Small) ∧
      (64 < k → k ≤ 512 → get_block_class k = BlockClass.Medium) ∧
      (512 < k → k ≤ 4096 → get_block_class k = BlockClass.Large) ∧
      (4096 < k → get_block_class k = BlockClass.Huge) := by
    intro k
    unfold get_block_class
    refine ⟨fun h1 => by rw [if_pos h1], fun h1 h2 => by rw [if_neg (by omega), if_pos h2],
      fun h1 h2 => by rw [if_neg (by omega), if_neg (by omega), if_pos h2],
      fun h1 => by rw [if_neg (by omega), if_neg (by omega), if_neg (by omega)]⟩
  have hi : arena_internal_alloc fuel n st = some (r, st1) := by
    unfold arena_alloc arena_lock arena_unlock at h
    cases ha : arena_internal_alloc fuel n st with
    | none => rw [ha] at h; simp at h
    | some q =>
      obtain ⟨p, st2⟩ := q
      rw [ha] at h
      exact h
  have hcore : (∀ c, c ≠ get_block_class n → st1.arena.free_list c = st.arena.free_list c) ∧
      (r ≠ 0 → r ∈ bs ∨ arena_alloc_aligned st n = (r, st1)) ∧
      (∀ a, (∀ b ∈ bs, a < b + 8 ∨ b + 16 ≤ a) → st1.mem a = st.mem a) := by
    by_cases hz : n = 0
    · unfold arena_internal_alloc at hi
      rw [if_pos hz] at hi
      simp only [Option.some.injEq, Prod.mk.injEq] at hi
      rw [← hi.2]
      exact ⟨fun _ _ => rfl, fun hr => absurd hi.1.symm hr, fun _ _ => rfl⟩
    · obtain ⟨ptr, st2, hsearch, hres⟩ := arena_internal_alloc_pos fuel n st hz r st1 hi
      have hs : arena_free_list_find_first_block fuel st (get_block_class n) n
            = some (ptr, st2) ∨
          arena_free_list_find_best_block fuel st (get_block_class n) n
            = some (ptr, st2) := by
        rcases hsearch with ⟨_, hf⟩ | ⟨_, hf⟩
        · exact Or.inl hf
        · exact Or.inr hf
      have hheads2 : ∀ c, c ≠ get_block_class n →
          st2.arena.free_list c = st.arena.free_list c := by
        rcases hs with hf | hf
        · exact find_first_block_heads _ _ _ _ _ _ hf
        · exact find_best_block_heads _ _ _ _ _ _ hf
      have hframe2 := search_frame fuel st (get_block_class n) n ptr st2 bs hl hs
      rcases hres with ⟨hp, hrp, hst⟩ | ⟨hp, hb⟩
      · rw [hst]
        refine ⟨hheads2, fun _ => Or.inl ?_, hframe2⟩
        rw [hrp]
        exact search_mem fuel st (get_block_class n) n ptr st2 bs hl hs hp
      · have hst2 : st2 = st := by
          subst hp
          rcases hs with hf | hf
          · exact find_first_block_null _ _ _ _ _ hf
          · exact find_best_block_null _ _ _ _ _ hf
        subst hst2
        have hfr := arena_alloc_aligned_frame st2 n
        rw [hb] at hfr
        refine ⟨fun c _ => by rw [hfr.1], fun _ => Or.inr hb, fun a _ => by rw [hfr.2]⟩
  obtain ⟨hheads, hres, hframe⟩ := hcore
  refine ⟨hclass, hheads, hres, hframe, ?_⟩
  intro c cs hc hcs hdis
  have hnext : ∀ x ∈ cs, Block_next st1.mem x = Block_next st.mem x := by
    intro x hx
    unfold Block_next Block_next_off
    refine load64_congr _ _ _ (fun a ha1 ha2 => hframe a ?_)
    intro b hb
    have := hdis x hx b hb
    unfold HeaderDisjoint sizeof_Block at this
    omega
  refine ⟨?_, ?_⟩
  · rw [hheads c hc]
    exact FreeList_frame st.mem st1.mem cs _ hnext hcs
  · intro x hx
    unfold Block_size
    refine load64_congr _ _ _ (fun a ha1 ha2 => hframe a ?_)
    intro b hb
    have := hdis x hx b hb
    unfold HeaderDisjoint sizeof_Block at this
    omega

/-- A request of 30 bytes (Small) in `medium_block_arena`, whose Small list is
empty and whose Medium list holds a block of 512 bytes at 4096: the call
returns the bump address 4608, not the block, and the Medium list still holds
the block. -/
theorem size_class_frame_example :
    FreeList medium_block_arena.mem
      (medium_block_arena.arena.free_list (get_block_class 30)) [] ∧
    FreeList medium_block_arena.mem
      (medium_block_arena.arena.free_list BlockClass.Medium) [4096] ∧
    30 ≤ Block_size medium_block_arena.mem 4096 ∧
    ∃ st1, arena_alloc 1 30 medium_block_arena = some (4608, st1) ∧
      st1.arena.free_list BlockClass.Medium = 4096 ∧
      FreeList st1.mem (st1.arena.free_list BlockClass.Medium) [4096] ∧
      arena_alloc_aligned medium_block_arena 30 = (4608, st1) := by
  have hl : FreeList medium_block_arena.mem
      (medium_block_arena.arena.free_list (get_block_class 30)) [] := by decide
  have hm : FreeList medium_block_arena.mem
      (medium_block_arena.arena.free_list BlockClass.Medium) [4096] := by decide
  have hrun : arena_alloc 1 30 medium_block_arena
      = some (4608, (arena_alloc_aligned medium_block_arena 30).2) := by rfl
  obtain ⟨_, h2, h3, _, h5⟩ :=
    size_class_frame 1 30 medium_block_arena [] 4608 _ hl hrun
  have hbump : arena_alloc_aligned medium_block_arena 30
      = (4608, (arena_alloc_aligned medium_block_arena 30).2) := by
    rcases h3 (by decide) with hin | hb
    · simp at hin
    · exact hb
  exact ⟨hl, hm, by decide, _, hrun,
    (h2 BlockClass.Medium (by decide)).trans (by decide),
    (h5 BlockClass.Medium [4096] (by decide) hm (by simp)).1, hbump⟩

/-- C21 (the code departs from it): a block held on the Medium free list is
returned for a Small request.  Under Best-Fit the live 40-byte region at 4096 is
still the head of the Small free list; the bytes of the caller are followed as
a `next` pointer to the block at 4208, which is the head of the Medium list
with 112 recorded bytes, and the request of 30 bytes returns 4208 while the
Medium list still starts at 4208.  Under First-Fit, after a request of
2^64 - 512 bytes has passed the wrapped bound check, the request of 30 bytes
returns the block at 4096, which is the head of the Medium list. -/
theorem C21_other_class_block_returned :
    get_block_class 30 = BlockClass.Small ∧ get_block_class 100 = BlockClass.Medium ∧
    (run 2 (cross_class_trace.take 12) (fresh 4096 1024 16 AllocationStrategy.BestFit)).map
        (fun r => (r.2.arena.free_list BlockClass.Small, r.2.arena.free_list BlockClass.Medium,
          Block_size r.2.mem 4208))
      = some (4096, 4208, 112) ∧
    (run 2 cross_class_trace (fresh 4096 1024 16 AllocationStrategy.BestFit)).map
        (fun r => (r.1, r.2.arena.free_list BlockClass.Medium))
      = some ([some 4096, some 4144, some 4208, none, none, none, some 4096,
          none, none, none, none, none, some 4208], 4208) ∧
    (run 1 cross_class_wrap_trace (fresh 4096 4096 16 AllocationStrategy.FirstFit)).map
        (fun r => (r.1, r.2.arena.free_list BlockClass.Medium, Block_size r.2.mem 4096))
      = some ([some 4096, none, some 4608, some 4096], 4096, 512) := by
  decide

/-! ## C22: `is_power_of_two` and `align_forward` -/

theorem is_power_of_two_two_pow (k : Nat) : is_power_of_two (2 ^ k) = true := by
  unfold is_power_of_two
  have hpos : 0 < 2 ^ k := Nat.pos_pow_of_pos k (by decide)
  have hne : (2 ^ k != 0) = true := by
    rw [bne_iff_ne]
    omega
  have hand : 2 ^ k &&& (2 ^ k - 1) = 0 := by
    rw [Nat.and_pow_two_sub_one_eq_mod, Nat.mod_self]
  rw [hne, hand]
  rfl

/-- C22: `is_power_of_two a` is true exactly when `a = 2 ^ k` for some `k`; for
an alignment that fails the test (zero included) `align_forward` returns 0; and
for a power-of-two alignment with `p + a - 1` representable in `uintptr_t` the
result is a multiple of `a`, lies in `[p, p + a)`, is below every other
multiple of `a` that is at least `p`, and is `p` itself when `p` is aligned. -/
theorem C22_align_forward (p a : Nat) :
    (is_power_of_two a = true ↔ ∃ k, a = 2 ^ k) ∧
    (is_power_of_two a = false → align_forward p a = 0) ∧
    (is_power_of_two a = true → p + a - 1 < SIZE_MOD →
      align_forward p a % a = 0 ∧ p ≤ align_forward p a ∧ align_forward p a < p + a ∧
      (∀ m, m % a = 0 → p ≤ m → align_forward p a ≤ m) ∧
      (p % a = 0 → align_forward p a = p)) := by
  refine ⟨⟨is_power_of_two_exists a, ?_⟩, ?_, ?_⟩
  · rintro ⟨k, rfl⟩
    exact is_power_of_two_two_pow k
  · intro h
    unfold align_forward
    rw [h]
    rfl
  · intro hpow hrep
    have ha := is_power_of_two_pos a hpow
    obtain ⟨h1, h2, h3⟩ := align_forward_bounds p a hpow (by omega)
    refine ⟨h3, h1, h2, ?_, ?_⟩
    · intro m hm hpm
      by_contra hcon
      have hlt : m < align_forward p a := by omega
      have hd1 : a ∣ align_forward p a := Nat.dvd_of_mod_eq_zero h3
      have hd2 : a ∣ m := Nat.dvd_of_mod_eq_zero hm
      have hd3 : a ∣ align_forward p a - m := Nat.dvd_sub' hd1 hd2
      have := Nat.le_of_dvd (by omega) hd3
      omega
    · intro hal
      rw [align_forward_eq p a hpow, if_pos hal]

/-- The address 4197 and the alignment 16: the next multiple of 16 is 4208. -/
theorem C22_witness :
    is_power_of_two 16 = true ∧ 4197 + 16 - 1 < SIZE_MOD ∧ align_forward 4197 16 = 4208 ∧
    align_forward 4197 16 % 16 = 0 ∧ 4197 ≤ align_forward 4197 16 ∧
    align_forward 4197 16 < 4197 + 16 ∧ align_forward 4197 12 = 0 ∧
    align_forward 4197 0 = 0 ∧
    (∀ m, m % 16 = 0 → 4197 ≤ m → align_forward 4197 16 ≤ m) :=
  ⟨by decide, by decide, by decide, by decide, by decide, by decide, by decide, by decide,
    ((C22_align_forward 4197 16).2.2 (by decide) (by decide)).2.2.2.1⟩

/-! ## C23: `offset ≤ size` -/

/-- The bound check of the bump path keeps `offset` within `size`. -/
theorem arena_alloc_aligned_offset_le (st : State) (size : Nat)
    (h : st.arena.offset ≤ st.arena.size) :
    (arena_alloc_aligned st size).2.arena.offset ≤ (arena_alloc_aligned st size).2.arena.size := by
  unfold arena_alloc_aligned
  dsimp only
  split
  · exact h
  · rename_i hgt
    exact Nat.le_of_not_gt hgt

theorem arena_internal_alloc_offset_le (fuel size : Nat) (st : State) (r : Nat) (st1 : State)
    (h : st.arena.offset ≤ st.arena.size)
    (hrun : arena_internal_alloc fuel size st = some (r, st1)) :
    st1.arena.offset ≤ st1.arena.size := by
  by_cases hz : size = 0
  · unfold arena_internal_alloc at hrun
    rw [if_pos hz] at hrun
    simp only [Option.some.injEq, Prod.mk.injEq] at hrun
    rw [← hrun.2]
    exact h
  · obtain ⟨ptr, st2, hsearch, hres⟩ := arena_internal_alloc_pos fuel size st hz r st1 hrun
    have h2 : st2.arena.offset ≤ st2.arena.size := by
      rcases hsearch with ⟨_, hf⟩ | ⟨_, hf⟩
      · rw [(find_first_block_counters _ _ _ _ _ _ hf).1,
          (config_fields _ _ (find_first_block_config _ _ _ _ _ _ hf)).2.2.1]
        exact h
      · rw [(find_best_block_counters _ _ _ _ _ _ hf).1,
          (config_fields _ _ (find_best_block_config _ _ _ _ _ _ hf)).2.2.1]
        exact h
    rcases hres with ⟨_, _, hst⟩ | ⟨_, hb⟩
    · rw [hst]
      exact h2
    · have := arena_alloc_aligned_offset_le st2 size h2
      rw [hb] at this
      exact this

theorem arena_recycle_alloc_offset_le (st : State) (ptr size : Nat) (cls : BlockClass)
    (h : st.arena.offset ≤ st.arena.size) :
    (arena_recycle_alloc st ptr size cls).2.arena.offset
      ≤ (arena_recycle_alloc st ptr size cls).2.arena.size := by
  unfold arena_recycle_alloc
  split
  · exact h
  · exact h

theorem step_offset_le (fuel : Nat) (c : Call) (st : State) (r : Option Nat) (st1 : State)
    (h : st.arena.offset ≤ st.arena.size) (hstep : step fuel c st = some (r, st1)) :
    st1.arena.offset ≤ st1.arena.size := by
  cases c with
  | alloc size =>
    have hs : (arena_alloc fuel size st).map (fun q => (some q.1, q.2)) = some (r, st1) := hstep
    unfold arena_alloc arena_lock arena_unlock at hs
    cases ha : arena_internal_alloc fuel size st with
    | none => rw [ha] at hs; simp at hs
    | some q =>
      obtain ⟨p, st2⟩ := q
      rw [ha] at hs
      simp only [Option.map_some', Option.some.injEq, Prod.mk.injEq] at hs
      rw [← hs.2]
      exact arena_internal_alloc_offset_le fuel size st p st2 h ha
  | calloc count size =>
    have hs : (arena_calloc fuel count size st).map (fun q => (some q.1, q.2))
        = some (r, st1) := hstep
    unfold arena_calloc arena_lock arena_unlock at hs
    dsimp only at hs
    cases ha : arena_internal_alloc fuel (count * size % SIZE_MOD) st with
    | none => rw [ha] at hs; simp at hs
    | some q =>
      obtain ⟨p, st2⟩ := q
      rw [ha] at hs
      simp only [Option.map_some', Option.some.injEq, Prod.mk.injEq] at hs
      rw [← hs.2]
      have h2 := arena_internal_alloc_offset_le fuel _ st p st2 h ha
      split
      · exact h2
      · exact h2
  | realloc new_size old_size ptr =>
    have hs : (arena_realloc fuel new_size old_size ptr st).map (fun q => (some q.1, q.2))
        = some (r, st1) := hstep
    unfold arena_realloc arena_lock arena_unlock at hs
    split at hs
    · simp only [Option.map_some', Option.some.injEq, Prod.mk.injEq] at hs
      rw [← hs.2]
      exact h
    · cases ha : arena_internal_alloc fuel new_size st with
      | none => rw [ha] at hs; simp at hs
      | some q =>
        obtain ⟨p, st2⟩ := q
        rw [ha] at hs
        simp only [Option.map_some', Option.some.injEq, Prod.mk.injEq] at hs
        rw [← hs.2]
        have h2 := arena_internal_alloc_offset_le fuel _ st p st2 h ha
        refine arena_recycle_alloc_offset_le _ ptr old_size _ ?_
        split
        · exact h2
        · exact h2
  | free size ptr =>
    have hs : some ((none : Option Nat), arena_free size ptr st) = some (r, st1) := hstep
    simp only [Option.some.injEq, Prod.mk.injEq] at hs
    rw [← hs.2]
    exact arena_recycle_alloc_offset_le st ptr size _ h
  | free_all =>
    have hs : some ((none : Option Nat), arena_free_all st) = some (r, st1) := hstep
    simp only [Option.some.injEq, Prod.mk.injEq] at hs
    rw [← hs.2]
    exact Nat.zero_le _
  | write addr val =>
    have hs : some ((none : Option Nat), { st with mem := store64 st.mem addr val })
        = some (r, st1) := hstep
    simp only [Option.some.injEq, Prod.mk.injEq] at hs
    rw [← hs.2]
    exact h

/-- C23: `offset ≤ size` holds for the arena `arena_init` returns, and from
every state in which it holds it holds again after `arena_alloc`,
`arena_calloc` and `arena_realloc` (whatever pointer they return, null
included), after `arena_free` and after `arena_free_all`; hence it holds after
every sequence of calls. -/
theorem C23_offset_le_size (st : State) (h : st.arena.offset ≤ st.arena.size) :
    (∀ buffer size align strategy, (arena_init buffer size align strategy).offset
      ≤ (arena_init buffer size align strategy).size) ∧
    (∀ fuel size r st1, arena_alloc fuel size st = some (r, st1) →
      st1.arena.offset ≤ st1.arena.size) ∧
    (∀ fuel count size r st1, arena_calloc fuel count size st = some (r, st1) →
      st1.arena.offset ≤ st1.arena.size) ∧
    (∀ fuel new_size old_size ptr r st1,
      arena_realloc fuel new_size old_size ptr st = some (r, st1) →
      st1.arena.offset ≤ st1.arena.size) ∧
    (∀ size ptr, (arena_free size ptr st).arena.offset ≤ (arena_free size ptr st).arena.size) ∧
    (arena_free_all st).arena.offset ≤ (arena_free_all st).arena.size ∧
    (∀ fuel cs rs st1, run fuel cs st = some (rs, st1) →
      st1.arena.offset ≤ st1.arena.size) := by
  refine ⟨fun _ size _ _ => Nat.zero_le size, ?_, ?_, ?_, ?_, ?_, ?_⟩
  · intro fuel size r st1 hrun
    refine step_offset_le fuel (Call.alloc size) st (some r) st1 h ?_
    show (arena_alloc fuel size st).map (fun q => (some q.1, q.2)) = _
    rw [hrun]
    rfl
  · intro fuel count size r st1 hrun
    refine step_offset_le fuel (Call.calloc count size) st (some r) st1 h ?_
    show (arena_calloc fuel count size st).map (fun q => (some q.1, q.2)) = _
    rw [hrun]
    rfl
  · intro fuel new_size old_size ptr r st1 hrun
    refine step_offset_le fuel (Call.realloc new_size old_size ptr) st (some r) st1 h ?_
    show (arena_realloc fuel new_size old_size ptr st).map (fun q => (some q.1, q.2)) = _
    rw [hrun]
    rfl
  · intro size ptr
    exact step_offset_le 0 (Call.free size ptr) st none _ h rfl
  · exact step_offset_le 0 Call.free_all st none _ h rfl
  · intro fuel cs
    induction cs generalizing st with
    | nil =>
      intro rs st1 hrun
      have hs : some (([] : List (Option Nat)), st) = some (rs, st1) := hrun
      simp only [Option.some.injEq, Prod.mk.injEq] at hs
      rw [← hs.2]
      exact h
    | cons c cs ih =>
      intro rs st1 hrun
      rw [run_cons] at hrun
      cases hst : step fuel c st with
      | none => rw [hst] at hrun; simp at hrun
      | some q =>
        obtain ⟨r, st2⟩ := q
        rw [hst] at hrun
        dsimp only at hrun
        cases hr : run fuel cs st2 with
        | none => rw [hr] at hrun; simp at hrun
        | some q2 =>
          obtain ⟨rs2, st3⟩ := q2
          rw [hr] at hrun
          simp only [Option.some.injEq, Prod.mk.injEq] at hrun
          rw [← hrun.2]
          exact ih st2 (step_offset_le fuel c st r st2 h hst) rs2 st3 hr

/-- The state with bump offset 40 in a 100-byte arena and the request of
2^64 - 48 bytes whose bound check wraps: the offset after the call is 0, still
at most the capacity 100. -/
theorem C23_witness :
    wrap_arena.arena.offset ≤ wrap_arena.arena.size ∧
    (arena_alloc 1 (2 ^ 64 - 48) wrap_arena).map
      (fun q => (q.1, q.2.arena.offset, q.2.arena.size)) = some (4144, 0, 100) ∧
    ∀ r st1, arena_alloc 1 (2 ^ 64 - 48) wrap_arena = some (r, st1) →
      st1.arena.offset ≤ st1.arena.size :=
  ⟨by decide, by decide,
    (C23_offset_le_size wrap_arena (by decide)).2.1 1 (2 ^ 64 - 48)⟩

/-! ## C24, C25: live regions and recorded extents -/

/-- C24 (the code departs from it): under Best-Fit with 16-byte alignment the
request of 40 bytes returns 4096 and, nothing being released or reset in
between, the request of 48 bytes returns 4096 again: the second region
[4096, 4144) contains the region [4096, 4136) that is still live. -/
theorem C24_best_fit_hands_out_live_region :
    is_power_of_two (fresh 4096 1024 16 AllocationStrategy.BestFit).arena.align = true ∧
    (run 3 double_handout_trace (fresh 4096 1024 16 AllocationStrategy.BestFit)).map
        (fun r => r.1)
      = some [some 4096, some 4144, some 4176, none, none, none, some 4096, some 4096] ∧
    (run 3 (double_handout_trace.take 7) (fresh 4096 1024 16 AllocationStrategy.BestFit)).map
        (fun r => r.2.arena.free_list BlockClass.Small) = some 4096 := by
  decide

/-- C25 (the code departs from it): in the 100-byte First-Fit arena at 4096 the
20-byte region at 4176, which ends with the buffer at 4196, is released with
its size; the block then heads the Small free list with recorded size 32, so
its recorded extent ends at 4208, past the end of the buffer. -/
theorem C25_recorded_extent_exceeds_buffer :
    (run 1 (overrun_trace.take 3) overrun_arena).map
        (fun r => (r.1, r.2.arena.free_list BlockClass.Small, Block_size r.2.mem 4176,
          r.2.arena.base + r.2.arena.size))
      = some ([some 4096, some 4176, none], 4176, 32, 4196) ∧
    4196 < 4176 + 32 := by
  decide

end ArenaAllocator
